import Mathlib

/-!
Verification of the DeepReviewer review-job runtime against its
natural-language specification.

The development shallowly embeds the Python sources of the repository:

* `deepreview/tools/review_tools.py` — the agent-facing tool suite
  (`pdf_search`, `pdf_annotate`, `paper_search`,
  `review_final_markdown_write`, ...), its section-draft assembler and
  the runtime context they mutate;
* `deepreview/report/final_report.py` — final-report content validation;
* `deepreview/adapters/mineru.py` — the parse-polling terminal-failure
  classifier;
* `deepreview/runner.py` — the post-exception recovery path of the job
  controller.

Python strings are modelled as `List Char`.  Character classes
(whitespace, line boundaries, lower-casing) are modelled over the ASCII
range plus the Unicode separators that Python's `str.strip`,
`str.splitlines` and the regex class `\s` agree on; exotic Unicode
whitespace beyond the listed characters is outside the model.
Dictionaries are modelled as insertion-ordered association lists, and
Python `set`s as insertion-ordered duplicate-free lists, matching the
iteration-order semantics the source relies on.  External effects
(event-log appends, atomic artifact writes, job-record mutation) are
made explicit in the return values of the embedded operations.
-/

/-- Python string, modelled as a list of characters. -/
abbrev PyStr := List Char

/-- Whitespace characters recognised by Python's `str.strip`, `str.split`
and the regex class `\s` (ASCII plus the common Unicode separators). -/
def isPyWs (c : Char) : Bool :=
  [' ', '\t', '\n', '\r', '\x0b', '\x0c', '\x1c', '\x1d', '\x1e', '\x1f',
   '\x85', '\u00A0', '\u2028', '\u2029', '\u3000'].contains c

/-- Line-boundary characters recognised by Python's `str.splitlines`. -/
def isLineBoundary (c : Char) : Bool :=
  ['\n', '\r', '\x0b', '\x0c', '\x1c', '\x1d', '\x1e', '\x85',
   '\u2028', '\u2029'].contains c

/-- Python `str.lstrip()`. -/
def pyLStrip (s : PyStr) : PyStr := s.dropWhile isPyWs

/-- Python `str.rstrip()`. -/
def pyRStrip (s : PyStr) : PyStr := (s.reverse.dropWhile isPyWs).reverse

/-- Python `str.strip()`. -/
def pyStrip (s : PyStr) : PyStr := pyRStrip (pyLStrip s)

/-- Python `str.lower()` (ASCII model). -/
def pyLower (s : PyStr) : PyStr := s.map Char.toLower

/-- Length bound for `List.dropWhile`, used for termination. -/
theorem lengthDropWhileLe {α : Type} (p : α → Bool) :
    ∀ l : List α, (l.dropWhile p).length ≤ l.length
  | [] => le_refl _
  | a :: l => by
    rw [List.dropWhile_cons]
    split
    · exact le_trans (lengthDropWhileLe p l) (Nat.le_succ _)
    · exact le_refl _

/-- Accumulator loop of `wsTokens` (the accumulator holds the current
token reversed). -/
def wsTokensAux : List Char → List Char → List PyStr
  | [], acc => if acc.isEmpty then [] else [acc.reverse]
  | c :: rest, acc =>
    if isPyWs c then
      if acc.isEmpty then wsTokensAux rest [] else acc.reverse :: wsTokensAux rest []
    else wsTokensAux rest (c :: acc)

/-- Python `str.split()` with no separator argument: maximal runs of
non-whitespace characters; equally the non-empty fields of
`re.split(r'\s+', s)`. -/
def wsTokens (s : PyStr) : List PyStr := wsTokensAux s []

/-- Python `sep.join(parts)`. -/
def joinSep (sep : PyStr) : List PyStr → PyStr
  | [] => []
  | [x] => x
  | x :: y :: rest => x ++ sep ++ joinSep sep (y :: rest)

/-- Python `needle in hay` on strings (substring containment). -/
def containsSub (hay needle : PyStr) : Bool :=
  match hay with
  | [] => needle.isEmpty
  | _ :: t => needle.isPrefixOf hay || containsSub t needle

/-- Scan loop of `countSub`: Python `hay.count(needle)` counts
non-overlapping occurrences from the left (`hay.count('')` is
`len(hay) + 1`; the tool code never hits that case but the model keeps
the convention). -/
def countSubAux (needle : PyStr) : List Char → Nat → Nat
  | [], _ => 0
  | h :: t, 0 =>
    if needle.isPrefixOf (h :: t) then 1 + countSubAux needle t (needle.length - 1)
    else countSubAux needle t 0
  | _ :: t, k + 1 => countSubAux needle t k

/-- Python `hay.count(needle)` for non-empty needles via `countSubAux`
(a match consumes `len(needle)` characters, making counts
non-overlapping). -/
def countSub (hay needle : PyStr) : Nat :=
  match needle with
  | [] => hay.length + 1
  | _ :: _ => countSubAux needle hay 0

/-- Python `str.splitlines()`: split at line boundaries, treating
`"\r\n"` as a single boundary and dropping a trailing empty segment. -/
def pySplitLinesCore : PyStr → PyStr → List PyStr
  | [], acc => if acc.isEmpty then [] else [acc.reverse]
  | '\r' :: '\n' :: rest, acc => acc.reverse :: pySplitLinesCore rest []
  | c :: rest, acc =>
    if isLineBoundary c then acc.reverse :: pySplitLinesCore rest []
    else pySplitLinesCore rest (c :: acc)

/-- Python `str.splitlines()`. -/
def pySplitLines (s : PyStr) : List PyStr := pySplitLinesCore s []

/-- Association-list lookup (Python `dict.get`), returning the first
binding; keys are unique in every dict the model builds. -/
def alGet {β : Type} (m : List (String × β)) (k : String) : Option β :=
  (m.find? (fun p => p.1 = k)).map (·.2)

/-- Association-list insert-or-overwrite (Python `dict[k] = v`): an
existing binding is updated in place, a new key is appended, matching
Python dict insertion-order semantics. -/
def alSet {β : Type} (m : List (String × β)) (k : String) (v : β) : List (String × β) :=
  if m.any (fun p => p.1 = k) then
    m.map (fun p => if p.1 = k then (k, v) else p)
  else m ++ [(k, v)]

/-- Python `dict.update(other)`: fold `alSet` over `other` in order. -/
def alUpdate {β : Type} (m other : List (String × β)) : List (String × β) :=
  other.foldl (fun acc p => alSet acc p.1 p.2) m

/-- `_REQUIRED_FINAL_REPORT_SECTIONS` of `review_tools.py`: the eleven
required final-report sections as `(section_id, title, aliases)`. -/
def requiredFinalReportSections : List (String × String × List String) :=
  [("summary", "Summary", ["summary"]),
   ("strengths", "Strengths", ["strengths"]),
   ("weaknesses", "Weaknesses", ["weaknesses"]),
   ("key_issues", "Key Issues", ["key issues", "issues"]),
   ("actionable_suggestions", "Actionable Suggestions",
     ["actionable suggestions", "suggestions"]),
   ("storyline_options_writing_outlines", "Storyline Options + Writing Outlines",
     ["storyline options + writing outlines", "storyline options",
      "writing outlines", "storylines"]),
   ("priority_revision_plan", "Priority Revision Plan",
     ["priority revision plan", "revision plan"]),
   ("experiment_inventory_research_experiment_plan",
     "Experiment Inventory & Research Experiment Plan",
     ["experiment inventory & research experiment plan", "experiment inventory",
      "research experiment plan"]),
   ("novelty_verification_related_work_matrix",
     "Novelty Verification & Related-Work Matrix",
     ["novelty verification & related-work matrix",
      "novelty verification & related work matrix", "novelty verification",
      "related-work matrix", "related work matrix"]),
   ("references", "References", ["references", "reference"]),
   ("scores", "Scores", ["scores", "score", "final score"])]

/-- `_required_final_report_section_order()`. -/
def requiredSectionOrder : List String :=
  requiredFinalReportSections.map (fun s => s.1)

/-- `_required_final_report_section_titles()` as a lookup
(`title_map.get(section_id, section_id)` defaulting to the id). -/
def sectionTitle (sid : String) : String :=
  match (requiredFinalReportSections.find? (fun s => s.1 = sid)) with
  | some s => s.2.1
  | none => sid

/-- `_normalize_final_report_section_token`: strip, lower-case, expand
`&` to ` and `, map `+ / \ _ -` to spaces, replace every character
outside `[0-9a-z\s]` by a space, then collapse whitespace. -/
def normalizeSectionToken (s : PyStr) : PyStr :=
  let lowered := pyLower (pyStrip s)
  let expanded := lowered.flatMap (fun c =>
    if c = '&' then " and ".toList
    else if c = '+' || c = '/' || c = '\\' || c = '_' || c = '-' then [' ']
    else [c])
  let cleaned := expanded.map (fun c =>
    if ('0' ≤ c && c ≤ '9') || ('a' ≤ c && c ≤ 'z') || isPyWs c then c else ' ')
  joinSep [' '] (wsTokens cleaned)

/-- `_required_final_report_alias_map()`: normalized alias → section id,
inserted in declaration order (id, title, then aliases per section),
skipping aliases that normalize to the empty string. -/
def requiredAliasMap : List (PyStr × String) :=
  requiredFinalReportSections.foldl
    (fun acc s =>
      (s.1 :: s.2.1 :: s.2.2).foldl
        (fun acc2 rawAlias =>
          let n := normalizeSectionToken rawAlias.toList
          if n.isEmpty then acc2
          else if acc2.any (fun p => p.1 = n) then
            acc2.map (fun p => if p.1 = n then (n, s.1) else p)
          else acc2 ++ [(n, s.1)])
        acc)
    []

/-- `_resolve_final_report_section_id`: exact normalized-alias lookup,
then first alias contained as a substring of the normalized key. -/
def resolveSectionId (sectionKey : PyStr) : Option String :=
  let normalized := normalizeSectionToken sectionKey
  if normalized.isEmpty then none
  else
    match (requiredAliasMap.find? (fun p => p.1 = normalized)).map (·.2) with
    | some sid => some sid
    | none =>
      (requiredAliasMap.find? (fun p =>
        !p.1.isEmpty && containsSub normalized p.1)).map (·.2)

/-- `_FINAL_REPORT_SECTION_HEADING_PATTERN.match(line)` with `group(1)`:
the regex `^\s{0,3}#{1,6}\s+(.+?)\s*$`. After at most 3 spaces and 1-6
hashes the line must continue with one whitespace character and at least
one further character; the lazy group captures the remainder stripped of
surrounding whitespace, except that a whitespace-only remainder (the
greedy `\s+` backtracking by one) captures just its last character. -/
def headingMatch (line : PyStr) : Option PyStr :=
  if (line.takeWhile isPyWs).length > 3 then none
  else
    let rest := line.dropWhile isPyWs
    let hashes := rest.takeWhile (fun c => c = '#')
    if hashes.length < 1 || hashes.length > 6 then none
    else
      let after := rest.dropWhile (fun c => c = '#')
      match after with
      | [] => none
      | [_] => none
      | c :: d :: cs =>
        if isPyWs c then
          let t := pyStrip after
          if t.isEmpty then some [(d :: cs).getLast (List.cons_ne_nil d cs)]
          else some t
        else none

/-- Buffer append step of `_extract_required_sections_from_markdown`:
`section_buffers.setdefault(active, []).append(raw_line)`. -/
def bufAppend (bufs : List (String × List PyStr)) (sid : String) (line : PyStr) :
    List (String × List PyStr) :=
  if bufs.any (fun p => p.1 = sid) then
    bufs.map (fun p => if p.1 = sid then (p.1, p.2 ++ [line]) else p)
  else bufs ++ [(sid, [line])]

/-- Line loop of `_extract_required_sections_from_markdown`: headings
switch the active section (creating its buffer when it resolves to a new
required id), other lines accumulate under the active section. -/
def extractSectionsLoop :
    List PyStr → Option String → List (String × List PyStr) → List (String × List PyStr)
  | [], _, bufs => bufs
  | line :: rest, active, bufs =>
    match headingMatch line with
    | some headingText =>
      let newActive := resolveSectionId headingText
      match newActive with
      | some sid =>
        if bufs.any (fun p => p.1 = sid) then extractSectionsLoop rest newActive bufs
        else extractSectionsLoop rest newActive (bufs ++ [(sid, [])])
      | none => extractSectionsLoop rest newActive bufs
    | none =>
      match active with
      | some sid => extractSectionsLoop rest active (bufAppend bufs sid line)
      | none => extractSectionsLoop rest active bufs

/-- `_extract_required_sections_from_markdown`: scan headings, group the
following lines, keep sections whose joined content is non-empty after
stripping. -/
def extractRequiredSections (markdownText : PyStr) : List (String × PyStr) :=
  (extractSectionsLoop (pySplitLines markdownText) none []).filterMap
    (fun p =>
      let content := pyStrip (joinSep ['\n'] p.2)
      if content.isEmpty then none else some (p.1, content))

/-- `_build_final_report_markdown_from_sections`: emit
`## <Title>\n<content>` for each required section in canonical order
whose content strips to non-empty, join with blank lines, strip. -/
def buildFinalReportMarkdown (sections : List (String × PyStr)) : PyStr :=
  let blocks := requiredSectionOrder.filterMap (fun sid =>
    let content := pyStrip ((alGet sections sid).getD [])
    if content.isEmpty then none
    else some ("## ".toList ++ (sectionTitle sid).toList ++ '\n' :: content))
  if blocks.isEmpty then [] else pyStrip (joinSep "\n\n".toList blocks)

/-- A value passed to a `list[str] | str` tool parameter. -/
inductive FieldVal where
  | str (v : PyStr)
  | list (v : List PyStr)
deriving DecidableEq, Repr

/-- `_coerce_markdown_text` for `str | None` input: strip, with `None`
becoming the empty string. -/
def coerceMarkdownText (v : Option PyStr) : PyStr :=
  match v with
  | none => []
  | some s => pyStrip s

/-- `_coerce_section_markdown` with `list_as_bullets=True` (the only
call mode used by `review_final_markdown_write`): lists become stripped
non-empty items rendered as `- item` bullet lines, strings are
stripped. -/
def coerceSectionMarkdown (v : FieldVal) : PyStr :=
  match v with
  | FieldVal.list items =>
    let cleaned := (items.map pyStrip).filter (fun s => !s.isEmpty)
    if cleaned.isEmpty then []
    else joinSep ['\n'] (cleaned.map (fun s => '-' :: ' ' :: s))
  | FieldVal.str s => pyStrip s

/-- `_strip_leading_section_heading`: drop a leading heading line (plus
following blank lines) when the heading resolves to the same section. -/
def stripLeadingSectionHeading (sid : String) (content : PyStr) : PyStr :=
  let text := pyStrip content
  if text.isEmpty then []
  else
    match pySplitLines text with
    | [] => text
    | firstLine :: rest =>
      match headingMatch (pyStrip firstLine) with
      | none => text
      | some headingText =>
        if resolveSectionId headingText = some sid then
          pyStrip (joinSep ['\n'] (rest.dropWhile (fun l => (pyStrip l).isEmpty)))
        else text

/-- `_normalize_final_report_sections`: resolve every key of a section
dict, strip its content, and keep non-empty entries (later keys that
resolve to the same id overwrite earlier ones). -/
def normalizeFinalReportSections (rawSections : List (String × PyStr)) :
    List (String × PyStr) :=
  rawSections.foldl
    (fun acc p =>
      match resolveSectionId p.1.toList with
      | none => acc
      | some sid =>
        let content := pyStrip p.2
        if content.isEmpty then acc else alSet acc sid content)
    []

/-- `_build_sections_from_legacy_fields`: the legacy fielded arguments of
`review_final_markdown_write`, in declaration order. -/
def buildSectionsFromLegacyFields (summary : Option PyStr)
    (strengths weaknesses issues suggestions storylines : Option FieldVal) :
    List (String × PyStr) :=
  let add := fun (acc : List (String × PyStr)) (sid : String) (t : PyStr) =>
    if t.isEmpty then acc else alSet acc sid t
  let acc0 : List (String × PyStr) := []
  let acc1 := add acc0 "summary" (coerceMarkdownText summary)
  let acc2 := add acc1 "strengths" ((strengths.map coerceSectionMarkdown).getD [])
  let acc3 := add acc2 "weaknesses" ((weaknesses.map coerceSectionMarkdown).getD [])
  let acc4 := add acc3 "key_issues" ((issues.map coerceSectionMarkdown).getD [])
  let acc5 := add acc4 "actionable_suggestions" ((suggestions.map coerceSectionMarkdown).getD [])
  add acc5 "storyline_options_writing_outlines" ((storylines.map coerceSectionMarkdown).getD [])

/-- Association-list lookup for integer keys (Python `dict.get`). -/
def alGetI {β : Type} (m : List (Int × β)) (k : Int) : Option β :=
  (m.find? (fun p => p.1 = k)).map (·.2)

/-- `PaperSearchUsage` of `deepreview/types.py`: monotonic counters. -/
structure PaperSearchUsage where
  totalCalls : Nat
  successfulCalls : Nat
  effectiveCalls : Nat
  papersFound : Nat
  distinctQueries : Nat
deriving DecidableEq, Repr

/-- Fresh `PaperSearchUsage()` (all counters zero). -/
def PaperSearchUsage.init : PaperSearchUsage := ⟨0, 0, 0, 0, 0⟩

/-- The configuration fields of `Settings` (`deepreview/config.py`) read
by the tool runtime. -/
structure Settings where
  enableFinalGates : Bool
  minPaperSearchCallsForPdfAnnotate : Int
  minPaperSearchCallsForFinal : Int
  minDistinctPaperQueriesForFinal : Int
  minAnnotationsForFinal : Int
  minEnglishWordsForFinal : Int
  minChineseCharsForFinal : Int
  forceEnglishOutput : Bool
deriving DecidableEq, Repr

/-- `AnnotationItem` of `deepreview/types.py` (the generated `id` and
`created_at` fields carry no logic and are elided). -/
structure AnnotationItem where
  page : Int
  startLine : Int
  endLine : Int
  text : PyStr
  comment : PyStr
  summaryText : Option PyStr
  objectType : PyStr
  severity : Option PyStr
deriving DecidableEq, Repr

/-- The mutable fields of `ReviewRuntimeContext` together with the
job-record latch and final-markdown artifact writes it drives
(`set_final_markdown`).  `diskFinalWrites` records each atomic write of
the `final_report.md` artifact; `statusUpdates` keeps only the length of
`status_updates`. -/
structure RState where
  annotations : List AnnotationItem
  finalMarkdownText : Option PyStr
  finalReportDraftSections : List (String × PyStr)
  finalReportDraftVersion : Nat
  toolCounts : List (String × Nat)
  paperSearchUsage : PaperSearchUsage
  paperSearchSignatures : List PyStr
  statusUpdates : Nat
  jobFinalReportReady : Bool
  diskFinalWrites : List PyStr
deriving DecidableEq, Repr

/-- Fresh `ReviewRuntimeContext` mutable state. -/
def RState.init : RState :=
  ⟨[], none, [], 0, [], PaperSearchUsage.init, [], 0, false, []⟩

/-- Python truthiness of the `str | None` field `final_markdown_text`. -/
def strTruthy (v : Option PyStr) : Bool :=
  match v with
  | none => false
  | some s => !s.isEmpty

/-- `ReviewRuntimeContext.record_tool`. -/
def recordTool (st : RState) (name : String) : RState :=
  { st with toolCounts := alSet st.toolCounts name ((alGet st.toolCounts name).getD 0 + 1) }

/-- `ReviewRuntimeContext.set_final_markdown`: atomically write the
final-markdown artifact, latch `final_markdown_text`, and set
`final_report_ready` on the job record. -/
def setFinalMarkdown (st : RState) (markdown : PyStr) : RState :=
  { st with
      diskFinalWrites := st.diskFinalWrites ++ [markdown],
      finalMarkdownText := some markdown,
      jobFinalReportReady := true }

/-- `_normalize_signature`: lowercased, whitespace-collapsed signature. -/
def normalizeSignature (s : PyStr) : PyStr :=
  joinSep [' '] (wsTokens (pyLower (pyStrip s)))

/-- Python `set.add` on the insertion-ordered signature set. -/
def addSig (sigs : List PyStr) (s : PyStr) : List PyStr :=
  if sigs.contains s then sigs else sigs ++ [s]

/-- Deduplication loop of `normalize_question_list`
(`adapters/paper_search.py`): whitespace-collapse each item, drop empty
ones, deduplicate case-insensitively keeping first occurrences. -/
def nqlLoop : List PyStr → List PyStr → List PyStr → List PyStr
  | [], _, cleaned => cleaned
  | item :: rest, seen, cleaned =>
    let normalized := joinSep [' '] (wsTokens item)
    if normalized.isEmpty then nqlLoop rest seen cleaned
    else
      let key := pyLower normalized
      if seen.contains key then nqlLoop rest seen cleaned
      else nqlLoop rest (seen ++ [key]) (cleaned ++ [normalized])

/-- `normalize_question_list` on its list-of-strings input form (the
JSON-array-string and bullet-text front end normalizes into the same
list shape before this loop): strip items, drop empties, deduplicate
case-insensitively, truncate to 3. -/
def normalizeQuestionList (raw : List PyStr) : List PyStr :=
  let rawItems := (raw.map pyStrip).filter (fun s => !s.isEmpty)
  (nqlLoop rawItems [] []).take 3

/-- A `question_results` row as read by `_count_papers` and the
signature loop: `question` is `str(row.get('question') or
row.get('query') or '')`, `count` is `int(row.get('count') or 0)`. -/
structure QuestionRow where
  question : PyStr
  count : Int
deriving DecidableEq, Repr

/-- The shape of a paper-search adapter response as read by
`paper_search` (`review_tools.py`): `success`, an optional integer
`count`, the number of dict rows of a list-valued `papers` field, the
dict rows of `question_results`, and a list-valued `questions` field.
The synthesized `paper_search_request_failed` payload produced on
transport errors is an instance of this shape. -/
structure PaperSearchRemoteResult where
  success : Bool
  countField : Option Int
  papersRows : Option Nat
  questionResults : Option (List QuestionRow)
  questionsReturned : Option (List PyStr)
deriving DecidableEq, Repr

/-- `question_results` fallback branch of `_count_papers`. -/
def qrTotal (r : PaperSearchRemoteResult) : Int :=
  ((r.questionResults.getD []).map (fun row => max 0 row.count)).sum

/-- `papers`-list branch of `_count_papers`. -/
def countPapersRest (r : PaperSearchRemoteResult) : Int :=
  match r.papersRows with
  | some n => if n > 0 then (n : Int) else qrTotal r
  | none => qrTotal r

/-- `_count_papers`: prefer a positive direct `count`, then the number
of dict rows of `papers`, then the summed `question_results` counts. -/
def countPapers (r : PaperSearchRemoteResult) : Int :=
  match r.countField with
  | some d => if d > 0 then d else countPapersRest r
  | none => countPapersRest r

/-- Arguments of one `paper_search` tool call, with the adapter response
supplied as an oracle. -/
structure PaperSearchCall where
  query : Option PyStr
  questionListRaw : Option (List PyStr)
  remote : PaperSearchRemoteResult
deriving DecidableEq, Repr

/-- `paper_search` (`review_tools.py`): record signatures of the query
and questions, invoke the adapter, update the usage counters, absorb
returned question signatures, recompute `distinct_queries`, and emit
`paper_search_called`. -/
def paperSearchStep (st : RState) (c : PaperSearchCall) : RState × List String :=
  let st0 := recordTool st "paper_search"
  let questions := normalizeQuestionList (c.questionListRaw.getD [])
  let queryText := pyStrip (c.query.getD [])
  let sigs1 :=
    if !queryText.isEmpty then addSig st0.paperSearchSignatures (normalizeSignature queryText)
    else st0.paperSearchSignatures
  let sigs2 := questions.foldl (fun acc q => addSig acc (normalizeSignature q)) sigs1
  let r := c.remote
  let usage0 := st0.paperSearchUsage
  let pc := countPapers r
  let usage1 : PaperSearchUsage :=
    { totalCalls := usage0.totalCalls + 1
      successfulCalls := usage0.successfulCalls + (if r.success then 1 else 0)
      effectiveCalls := usage0.effectiveCalls + (if r.success && pc > 0 then 1 else 0)
      papersFound := usage0.papersFound + (if r.success && pc > 0 then pc.toNat else 0)
      distinctQueries := usage0.distinctQueries }
  let sigs3 := (r.questionsReturned.getD []).foldl
    (fun acc q => addSig acc (normalizeSignature q)) sigs2
  let sigs4 := (r.questionResults.getD []).foldl
    (fun acc row =>
      let q := pyStrip row.question
      if q.isEmpty then acc else addSig acc (normalizeSignature q)) sigs3
  let distinct := (sigs4.filter (fun s => !s.isEmpty)).length
  let st1 :=
    { st0 with
        paperSearchSignatures := sigs4,
        paperSearchUsage := { usage1 with distinctQueries := distinct } }
  (st1, ["paper_search_called"])

/-- `_flatten_page_index`: pages in ascending key order, lines numbered
from 1. -/
def flattenPageIndex (pageIndex : List (Int × List PyStr)) : List (Int × Nat × PyStr) :=
  (List.insertionSort (fun a b => a ≤ b) (pageIndex.map (fun p => p.1))).flatMap
    (fun page =>
      ((alGetI pageIndex page).getD []).enumFrom 1 |>.map (fun q => (page, q.1, q.2)))

/-- A `pdf_search` hit. -/
structure PdfSearchHit where
  page : Int
  line : Nat
  score : Nat
  text : PyStr
deriving DecidableEq, Repr

/-- Sort key of `pdf_search`: `(-score, page, line)` ascending, i.e.
score descending, then page ascending, then line ascending. -/
def hitLe (a b : PdfSearchHit) : Bool :=
  decide (b.score < a.score ∨ (a.score = b.score ∧
    (a.page < b.page ∨ (a.page = b.page ∧ a.line ≤ b.line))))

/-- Result payload of `pdf_search` (`status`, `reason` on error, and the
hit list; free-text fields are elided). -/
structure PdfSearchResult where
  status : String
  reason : Option String
  hits : List PdfSearchHit
deriving DecidableEq, Repr

/-- Scoring of one page line by `pdf_search`: summed non-overlapping
occurrence counts of the lowercased whitespace tokens of the query,
with the full lowercased query as substring fallback at score 1; a line
scoring 0 without the fallback is dropped. -/
def scoreLine (tokens : List PyStr) (qLower : PyStr) (lineText : PyStr) : Option Nat :=
  let hay := pyLower lineText
  let score := (tokens.map (fun tok => countSub hay tok)).sum
  if score = 0 then (if containsSub hay qLower then some 1 else none)
  else some score

/-- `pdf_search` (`review_tools.py`): validate the query, score the
flattened page index, stably sort by `(-score, page, line)` (a
stable sort w.r.t. a total preorder is unique, so `insertionSort`
coincides with Python's `list.sort`), and truncate to `max(1, min(50, top_k or 8))`. -/
def pdfSearch (pageIndex : List (Int × List PyStr)) (st : RState)
    (query : PyStr) (topK : Int) : RState × PdfSearchResult :=
  (recordTool st "pdf_search",
   let text := pyStrip query
   if text.isEmpty then
     ⟨"error", some "empty_query", []⟩
   else
     let tokens0 := wsTokens (pyLower text)
     let tokens := if tokens0.isEmpty then [pyLower text] else tokens0
     let qLower := pyLower text
     let rows := flattenPageIndex pageIndex
     let scored := rows.filterMap (fun row =>
       (scoreLine tokens qLower row.2.2).map (fun s => (⟨row.1, row.2.1, s, row.2.2⟩ : PdfSearchHit)))
     let limit := (max 1 (min 50 (if topK = 0 then 8 else topK))).toNat
     let hits := (List.insertionSort (fun a b => hitLe a b = true) scored).take limit
     ⟨"ok", none, hits⟩)

/-- Result payload of `pdf_read_lines` / `pdf_jump` (only the fields a
claim mentions). -/
structure PageToolResult where
  status : String
  reason : Option String
deriving DecidableEq, Repr

/-- `pdf_read_lines` (modelled to its status outcome: the returned
snippet carries no state effect). -/
def pdfReadLines (pageIndex : List (Int × List PyStr)) (st : RState)
    (page : Int) : RState × PageToolResult :=
  let st0 := recordTool st "pdf_read_lines"
  match alGetI pageIndex page with
  | none => (st0, ⟨"error", some "page_not_found"⟩)
  | some lines =>
    if lines.isEmpty then (st0, ⟨"error", some "page_not_found"⟩)
    else (st0, ⟨"ok", none⟩)

/-- `pdf_jump` (modelled to its status outcome). -/
def pdfJump (pageIndex : List (Int × List PyStr)) (st : RState)
    (page : Int) : RState × PageToolResult :=
  let st0 := recordTool st "pdf_jump"
  match alGetI pageIndex page with
  | none => (st0, ⟨"error", some "page_not_found"⟩)
  | some lines =>
    if lines.isEmpty then (st0, ⟨"error", some "page_not_found"⟩)
    else (st0, ⟨"ok", none⟩)

/-- Result payload of `pdf_annotate` (status, machine-readable reason,
and the new annotation count on success). -/
structure AnnotateResult where
  status : String
  reason : Option String
  annotationCount : Option Nat
deriving DecidableEq, Repr

/-- Arguments of one `pdf_annotate` call. -/
structure AnnotateArgs where
  page : Int
  startLine : Int
  endLine : Int
  comment : PyStr
  summaryText : Option PyStr
  objectType : PyStr
  severity : Option PyStr
deriving DecidableEq, Repr

/-- `pdf_annotate` (`review_tools.py`): the paper-search gate is checked
first — unconditionally, before page lookup and independently of
`enable_final_gates` — then the page, span and comment are validated,
and the annotation is appended and persisted with an
`annotation_created` event. -/
def pdfAnnotate (settings : Settings) (pageIndex : List (Int × List PyStr))
    (st : RState) (a : AnnotateArgs) : RState × AnnotateResult × List String :=
  let st0 := recordTool st "pdf_annotate"
  let requiredSearchCalls := (max 0 settings.minPaperSearchCallsForPdfAnnotate).toNat
  let currentSearchCalls := st0.paperSearchUsage.totalCalls
  if currentSearchCalls < requiredSearchCalls then
    (st0, ⟨"error", some "paper_search_calls_not_met", none⟩, [])
  else
    match alGetI pageIndex a.page with
    | none => (st0, ⟨"error", some "page_not_found", none⟩, [])
    | some lines =>
      if lines.isEmpty then (st0, ⟨"error", some "page_not_found", none⟩, [])
      else
        let startV : Int := max 1 a.startLine
        let endV : Int := max startV a.endLine
        let endIdx : Int := min (lines.length : Int) endV
        let snippet := (lines.drop (startV - 1).toNat).take (endIdx - (startV - 1)).toNat
        let text := pyStrip (joinSep ['\n'] snippet)
        if text.isEmpty then (st0, ⟨"error", some "empty_span", none⟩, [])
        else
          let commentText := pyStrip a.comment
          if commentText.isEmpty then (st0, ⟨"error", some "comment_required", none⟩, [])
          else
            let ot0 := pyStrip (if a.objectType.isEmpty then "suggestion".toList else a.objectType)
            let ann : AnnotationItem :=
              { page := a.page
                startLine := startV
                endLine := endIdx
                text := text
                comment := commentText
                summaryText := a.summaryText.bind (fun s =>
                  if s.isEmpty then none else some (pyStrip s))
                objectType := if ot0.isEmpty then "suggestion".toList else ot0
                severity := a.severity.bind (fun s =>
                  if s.isEmpty then none else some (pyStrip s)) }
            let st1 := { st0 with annotations := st0.annotations ++ [ann] }
            (st1, ⟨"ok", none, some st1.annotations.length⟩, ["annotation_created"])

/-- `_MARKDOWN_CODE_FENCE_PATTERN.sub(' ', s)`: replace every
non-overlapping ``` ...``` fence pair (non-greedy body) by a space. -/
def splitFirstSub (hay needle : PyStr) : Option (PyStr × PyStr) :=
  match hay with
  | [] => none
  | h :: t =>
    if needle.isPrefixOf hay then some ([], hay.drop needle.length)
    else (splitFirstSub t needle).map (fun p => (h :: p.1, p.2))

/-- Suffix returned by `splitFirstSub` is strictly shorter than the
haystack when the needle is non-empty. -/
theorem splitFirstSubLength {needle : PyStr} (hne : needle ≠ []) :
    ∀ {hay : PyStr} {p : PyStr × PyStr},
      splitFirstSub hay needle = some p → p.2.length < hay.length := by
  intro hay
  induction hay with
  | nil => intro p h; simp [splitFirstSub] at h
  | cons h t ih =>
    intro p heq
    by_cases hp : needle.isPrefixOf (h :: t)
    · rw [splitFirstSub, if_pos hp, Option.some_inj] at heq
      subst heq
      have hlen : 0 < needle.length := List.length_pos.mpr hne
      simp only [List.length_drop, List.length_cons]
      omega
    · rw [splitFirstSub, if_neg hp] at heq
      cases hrec : splitFirstSub t needle with
      | none => rw [hrec] at heq; simp at heq
      | some q =>
        rw [hrec, Option.map_some', Option.some_inj] at heq
        subst heq
        have hq := ih hrec
        exact Nat.lt_succ_of_lt hq

/-- Code-fence substitution of `_sanitize_markdown_for_length_count`. -/
def subCodeFences (s : PyStr) : PyStr :=
  match h1 : splitFirstSub s "```".toList with
  | none => s
  | some (pre, rest) =>
    match h2 : splitFirstSub rest "```".toList with
    | none => s
    | some (_, after2) => pre ++ ' ' :: subCodeFences after2
termination_by s.length
decreasing_by
  have l1 : rest.length < s.length := splitFirstSubLength (by decide) h1
  have l2 : after2.length < rest.length := splitFirstSubLength (by decide) h2
  omega

/-- `_INLINE_CODE_PATTERN.sub(' ', s)`: replace every backtick-delimited
single-line span with at least one character by a space.  Scanning jumps
to the first backtick; on a failed match the scan resumes right after
that backtick (the prefix contains no backtick). -/
def subInlineCode (s : PyStr) : PyStr :=
  match h1 : splitFirstSub s ['`'] with
  | none => s
  | some (pre, rest) =>
    let body := rest.takeWhile (fun d => d ≠ '`' && d ≠ '\n')
    match h2 : rest.dropWhile (fun d => d ≠ '`' && d ≠ '\n') with
    | '`' :: rest2 =>
      if body.isEmpty then pre ++ '`' :: subInlineCode rest
      else pre ++ ' ' :: subInlineCode rest2
    | _ => pre ++ '`' :: subInlineCode rest
termination_by s.length
decreasing_by
  all_goals have l1 : rest.length < s.length := splitFirstSubLength (by decide) h1
  all_goals try omega
  all_goals
    have l2 := lengthDropWhileLe (fun d => d ≠ '`' && d ≠ '\n') rest
  all_goals rw [h2] at l2
  all_goals simp only [List.length_cons] at l2
  all_goals omega

/-- `_MARKDOWN_LINK_PATTERN.sub(r'\1', s)`: rewrite `[label](target)`
to `label` (non-empty label without `]`, non-empty target without `)`).
Scanning jumps to the first `[`; on a failed match the scan resumes
right after it. -/
def subMarkdownLinks (s : PyStr) : PyStr :=
  match h1 : splitFirstSub s ['['] with
  | none => s
  | some (pre, rest) =>
    let body1 := rest.takeWhile (fun d => d ≠ ']')
    match h2 : rest.dropWhile (fun d => d ≠ ']') with
    | ']' :: '(' :: rest2 =>
      if body1.isEmpty then pre ++ '[' :: subMarkdownLinks rest
      else
        let body2 := rest2.takeWhile (fun d => d ≠ ')')
        match h3 : rest2.dropWhile (fun d => d ≠ ')') with
        | ')' :: rest3 =>
          if body2.isEmpty then pre ++ '[' :: subMarkdownLinks rest
          else pre ++ body1 ++ subMarkdownLinks rest3
        | _ => pre ++ '[' :: subMarkdownLinks rest
    | _ => pre ++ '[' :: subMarkdownLinks rest
termination_by s.length
decreasing_by
  all_goals have l1 : rest.length < s.length := splitFirstSubLength (by decide) h1
  all_goals try omega
  · have l2 := lengthDropWhileLe (fun d => d ≠ ']') rest
    rw [h2] at l2
    have l3 := lengthDropWhileLe (fun d => d ≠ ')') rest2
    rw [h3] at l3
    simp only [List.length_cons] at l2 l3
    omega

/-- `_URL_PATTERN.sub(' ', s)`: replace `https?://<nonspace>+` and
`www.<nonspace>+` runs by a space. -/
def subUrls (s : PyStr) : PyStr :=
  match s with
  | [] => []
  | c :: rest =>
    let plen :=
      if "https://".toList.isPrefixOf (c :: rest) then 8
      else if "http://".toList.isPrefixOf (c :: rest) then 7
      else if "www.".toList.isPrefixOf (c :: rest) then 4
      else 0
    if plen = 0 then c :: subUrls rest
    else
      let afterPre := (c :: rest).drop plen
      let run := afterPre.takeWhile (fun d => !isPyWs d)
      if run.isEmpty then c :: subUrls rest
      else ' ' :: subUrls (afterPre.drop run.length)
termination_by s.length
decreasing_by
  all_goals simp only [List.length_cons, List.length_drop, List.length_take]
  all_goals omega

/-- ASCII letter test (`[A-Za-z]`). -/
def isAsciiLetter (c : Char) : Bool :=
  ('A' ≤ c && c ≤ 'Z') || ('a' ≤ c && c ≤ 'z')

/-- Scanner of `countEnglishWords`.  The state tracks the regex
position: 0 = outside a word, 1 = inside the first letter run,
2 = just consumed the optional `'`/`’`/`-` separator, 3 = inside the
continuation letter run (after which the word cannot extend again). -/
def englishWordScan : PyStr → Nat → Nat
  | [], _ => 0
  | c :: rest, state =>
    if isAsciiLetter c then
      match state with
      | 0 => 1 + englishWordScan rest 1
      | 1 => englishWordScan rest 1
      | 2 => englishWordScan rest 3
      | _ => englishWordScan rest 3
    else if (c = '\'' || c = '’' || c = '-') && state = 1 then
      englishWordScan rest 2
    else englishWordScan rest 0

/-- `len(_ENGLISH_WORD_PATTERN.findall(s))` for the pattern
`[A-Za-z]+(?:['’-][A-Za-z]+)?`: maximal letter runs, optionally
extended once by an apostrophe/right-quote/hyphen followed by a letter
run, counted left to right without overlap. -/
def countEnglishWords (s : PyStr) : Nat := englishWordScan s 0

/-- `_CHINESE_CHAR_PATTERN` count: characters in `[一-鿿]`. -/
def countChineseChars (s : PyStr) : Nat :=
  s.countP (fun c => 0x4e00 ≤ c.toNat && c.toNat ≤ 0x9fff)

/-- `_sanitize_markdown_for_length_count`: remove code fences, inline
code, rewrite links to their labels, drop URLs, replace `|` by spaces,
collapse whitespace and strip. -/
def sanitizeMarkdownForLengthCount (text : PyStr) : PyStr :=
  if text.isEmpty then []
  else
    let s1 := subCodeFences text
    let s2 := subInlineCode s1
    let s3 := subMarkdownLinks s2
    let s4 := subUrls s3
    let s5 := s4.map (fun c => if c = '|' then ' ' else c)
    joinSep [' '] (wsTokens s5)

/-- `_REQUIRED_SECTION_GROUPS` of `final_report.py`: label and heading
aliases (including the Chinese aliases) used by the heading scan. -/
def requiredSectionGroups : List (String × List String) :=
  [("Summary", ["summary", "摘要", "总结"]),
   ("Strengths", ["strengths", "优点", "优势"]),
   ("Weaknesses", ["weaknesses", "缺点", "问题"]),
   ("Key Issues", ["key issues", "核心问题", "关键问题"]),
   ("Actionable Suggestions", ["actionable suggestions", "建议", "可执行建议"]),
   ("Storyline Options + Writing Outlines",
     ["storyline options", "writing outlines", "叙事方案", "写作提纲"]),
   ("Priority Revision Plan", ["priority revision plan", "修订计划", "优先级修订计划"]),
   ("Experiment Inventory & Research Experiment Plan",
     ["experiment inventory", "research experiment plan", "实验清单", "研究实验计划"]),
   ("Novelty Verification & Related-Work Matrix",
     ["novelty verification", "related-work matrix", "新颖性验证", "相关工作矩阵"]),
   ("References", ["references", "reference", "参考文献"]),
   ("Scores", ["scores", "final score", "评分", "最终评分"])]

/-- `_extract_markdown_headings`: stripped lines starting with `#`,
hash-stripped, stripped and lowercased, non-empty. -/
def extractMarkdownHeadings (md : PyStr) : List PyStr :=
  (pySplitLines md).filterMap (fun line =>
    let stripped := pyStrip line
    match stripped with
    | '#' :: _ =>
      let text := pyLower (pyStrip (stripped.dropWhile (fun c => c = '#')))
      if text.isEmpty then none else some text
    | _ => none)

/-- `find_missing_required_sections`: a section label is satisfied when
any of its aliases occurs as a substring of any heading. -/
def findMissingRequiredSections (md : PyStr) : List String :=
  let headings := extractMarkdownHeadings md
  if headings.isEmpty then requiredSectionGroups.map (fun g => g.1)
  else
    requiredSectionGroups.filterMap (fun g =>
      if g.2.any (fun al => headings.any (fun h => containsSub h al.toList)) then none
      else some g.1)

/-- `LanguageStats` of `final_report.py` (the float ratio fields are
elided; the primary-language comparison `chinese_ratio > 0.5` is
modelled by the exact equivalent `2 * chinese > english + chinese`). -/
structure LanguageStats where
  primaryLanguage : String
  englishWords : Nat
  chineseChars : Nat
deriving DecidableEq, Repr

/-- `analyze_report_language`. -/
def analyzeReportLanguage (text : PyStr) : LanguageStats :=
  let cleaned := sanitizeMarkdownForLengthCount text
  let english := countEnglishWords cleaned
  let chinese := countChineseChars cleaned
  if english + chinese = 0 then ⟨"en", english, chinese⟩
  else ⟨if 2 * chinese > english + chinese then "zh-CN" else "en", english, chinese⟩

/-- `FinalReportValidation` of `final_report.py` (the free-text
`message` is elided). -/
structure FinalReportValidation where
  ok : Bool
  reason : Option String
  stats : LanguageStats
  missingSections : List String
deriving DecidableEq, Repr

/-- `validate_final_report`. -/
def validateFinalReport (markdown : PyStr) (minEnglishWords minChineseChars : Int)
    (forceEnglishOutput : Bool) : FinalReportValidation :=
  let text := pyStrip markdown
  if text.isEmpty then
    ⟨false, some "markdown_required", analyzeReportLanguage [],
      requiredSectionGroups.map (fun g => g.1)⟩
  else
    let missing := findMissingRequiredSections text
    let stats := analyzeReportLanguage text
    if forceEnglishOutput && stats.chineseChars > 0 then
      ⟨false, some "english_required", stats, []⟩
    else if !missing.isEmpty then
      ⟨false, some "final_report_sections_not_met", stats, missing⟩
    else if minEnglishWords > 0 && stats.primaryLanguage = "en"
        && (stats.englishWords : Int) < minEnglishWords then
      ⟨false, some "final_report_length_not_met", stats, []⟩
    else if minChineseChars > 0 && stats.primaryLanguage = "zh-CN"
        && (stats.chineseChars : Int) < minChineseChars then
      ⟨false, some "final_report_length_not_met", stats, []⟩
    else ⟨true, none, stats, []⟩

/-- Result payload of `review_final_markdown_write`, restricted to the
structured fields (free-text `message`, `next_steps`, usage echoes and
hints are elided).  `Option` marks keys that are absent from some
payload shapes; `nextRequiredSection` is `some none` when the key is
present with value `None`. -/
structure FinalWriteResult where
  status : String
  reason : Option String
  taskCompleted : Option Bool
  finalReportPersisted : Option Bool
  retryRequired : Option Bool
  completedSections : Option (List String)
  missingSections : Option (List String)
  nextRequiredSection : Option (Option String)
  draftVersion : Option Nat
deriving DecidableEq, Repr

/-- A plain validation-error payload of `review_final_markdown_write`
(`status=error`, `retry_required=True`, no section bookkeeping). -/
def fwError (reason : String) : FinalWriteResult :=
  ⟨"error", some reason, none, none, some true, none, none, none, none⟩

/-- `_build_final_report_progress_payload` (structured fields). -/
def fwProgress (completedIds missingIds : List String) (draftVersion : Nat)
    (status reason : String) (retryRequired : Bool) : FinalWriteResult :=
  ⟨status, some reason, some false, none, some retryRequired,
   some completedIds, some missingIds, some missingIds.head?,
   some (max 1 draftVersion)⟩

/-- Arguments of one `review_final_markdown_write` call. -/
structure FinalWriteArgs where
  markdown : Option PyStr
  summary : Option PyStr
  strengths : Option FieldVal
  weaknesses : Option FieldVal
  issues : Option FieldVal
  suggestions : Option FieldVal
  storylines : Option FieldVal
  sectionId : Option PyStr
  sectionTitleArg : Option PyStr
  sectionContent : Option FieldVal
  source : Option PyStr
deriving DecidableEq, Repr

/-- An all-`none` argument record, for building concrete calls. -/
def FinalWriteArgs.empty : FinalWriteArgs :=
  ⟨none, none, none, none, none, none, none, none, none, none, none⟩

/-- Python `a or b` on `str | None` operands. -/
def pyOrStr (a b : Option PyStr) : Option PyStr :=
  match a with
  | some s => if s.isEmpty then b else some s
  | none => b

/-- Completed required sections of a draft, in canonical order
(`[k for k in order if draft.get(k, '').strip()]`). -/
def completedOf (draft : List (String × PyStr)) : List String :=
  requiredSectionOrder.filter (fun sid =>
    !(pyStrip ((alGet draft sid).getD [])).isEmpty)

/-- Incoming sections of a `review_final_markdown_write` call before the
explicit `(section_id, section_content)` pair is applied: legacy fields,
updated by sections parsed from the `markdown` blob, with the whole blob
falling back to `summary` when nothing parses and no legacy field was
given. -/
def incomingSectionsBase (args : FinalWriteArgs) : List (String × PyStr) :=
  let rawMarkdownInput := coerceMarkdownText args.markdown
  let legacySections := buildSectionsFromLegacyFields args.summary args.strengths
    args.weaknesses args.issues args.suggestions args.storylines
  let markdownSections := extractRequiredSections rawMarkdownInput
  if !markdownSections.isEmpty then alUpdate legacySections markdownSections
  else if !rawMarkdownInput.isEmpty && legacySections.isEmpty then
    [("summary", rawMarkdownInput)]
  else legacySections

/-- Continuation of `review_final_markdown_write` once the incoming
section map is settled: merge into the draft, report missing sections,
apply the commit-time gates and validation, and commit. -/
def finalWriteMerge (settings : Settings) (st0 : RState)
    (incoming : List (String × PyStr)) : RState × FinalWriteResult × List String :=
  let draft0 := normalizeFinalReportSections st0.finalReportDraftSections
  let hasNew := !incoming.isEmpty
  let draft := if hasNew then alUpdate draft0 incoming else draft0
  if draft.isEmpty then
    (st0, fwError "section_payload_required", ["final_report_write_failed"])
  else
    let version0 := if hasNew then st0.finalReportDraftVersion + 1
      else st0.finalReportDraftVersion
    let version := max 1 version0
    let st1 := { st0 with
      finalReportDraftSections := draft,
      finalReportDraftVersion := version }
    let completedIds := completedOf draft
    let missingIds := requiredSectionOrder.filter (fun sid => !completedIds.contains sid)
    if !missingIds.isEmpty then
      (st1, fwProgress completedIds missingIds version "partial"
        "required_sections_missing" true, ["final_report_draft_saved"])
    else
      let usage := st1.paperSearchUsage
      let requiredPaperCalls := (max 0 settings.minPaperSearchCallsForFinal).toNat
      let requiredDistinct := (max 0 settings.minDistinctPaperQueriesForFinal).toNat
      let requiredAnnotationCount := (max 1 settings.minAnnotationsForFinal).toNat
      if settings.enableFinalGates && usage.totalCalls < requiredPaperCalls then
        (st1, fwProgress completedIds missingIds version "error"
          "paper_search_calls_not_met" true, ["final_report_write_failed"])
      else if settings.enableFinalGates && usage.distinctQueries < requiredDistinct then
        (st1, fwProgress completedIds missingIds version "error"
          "paper_search_distinct_queries_not_met" true, ["final_report_write_failed"])
      else if settings.enableFinalGates
          && st1.annotations.length < requiredAnnotationCount then
        (st1, fwProgress completedIds missingIds version "error"
          "annotation_count_not_met" true, ["final_report_write_failed"])
      else
        let markdownText := buildFinalReportMarkdown draft
        if markdownText.isEmpty then
          (st1, fwError "markdown_required", ["final_report_write_failed"])
        else
          let validation := validateFinalReport markdownText
            settings.minEnglishWordsForFinal settings.minChineseCharsForFinal
            settings.forceEnglishOutput
          if !validation.ok && settings.enableFinalGates then
            (st1, fwProgress completedIds missingIds version "error"
              (validation.reason.getD "final_report_validation_failed") true,
              ["final_report_write_failed"])
          else
            let skipEvents :=
              if !validation.ok then ["final_report_validation_skipped"] else []
            let st2 := setFinalMarkdown st1 markdownText
            (st2,
             ⟨"ok", none, some true, some true, none, some completedIds,
              some [], some none, some version⟩,
             skipEvents ++ ["final_report_persisted"])

/-- Argument-validation stage of `review_final_markdown_write`: resolve
the requested section (`section_id or section_title`), reject an
unresolvable key (`section_id_invalid`) or a named section without
usable content (`section_content_required`), and otherwise produce the
final incoming section map. -/
def finalWriteIncoming (args : FinalWriteArgs) :
    Except String (List (String × PyStr)) :=
  let incoming0 := incomingSectionsBase args
  match pyOrStr args.sectionId args.sectionTitleArg with
  | none => Except.ok incoming0
  | some sk =>
    if sk.isEmpty then Except.ok incoming0
    else
      match resolveSectionId sk with
      | none => Except.error "section_id_invalid"
      | some rid =>
        match args.sectionContent with
        | none =>
          if incoming0.any (fun p => p.1 = rid) then Except.ok incoming0
          else Except.error "section_content_required"
        | some sc =>
          let requestedContent := stripLeadingSectionHeading rid
            (pyStrip (coerceSectionMarkdown sc))
          if requestedContent.isEmpty then Except.error "section_content_required"
          else Except.ok (alSet incoming0 rid requestedContent)

/-- `review_final_markdown_write` (`review_tools.py`): post-commit
short-circuit, input normalization and section-mode validation
(`finalWriteIncoming`, whose errors are returned with a
`final_report_write_failed` event), then `finalWriteMerge`. -/
def reviewFinalMarkdownWrite (settings : Settings) (st : RState)
    (args : FinalWriteArgs) : RState × FinalWriteResult × List String :=
  let st0 := recordTool st "review_final_markdown_write"
  if strTruthy st0.finalMarkdownText then
    (st0,
     ⟨"ok", none, some true, some true, none,
      some (completedOf st0.finalReportDraftSections), some [], some none, none⟩,
     [])
  else
    match finalWriteIncoming args with
    | Except.error reason => (st0, fwError reason, ["final_report_write_failed"])
    | Except.ok incoming => finalWriteMerge settings st0 incoming

/-- One agent tool call, with external responses supplied as oracles. -/
inductive ToolCall where
  | statusUpdate
  | pdfSearchCall (query : PyStr) (topK : Int)
  | pdfReadLinesCall (page : Int)
  | pdfJumpCall (page : Int)
  | pdfAnnotateCall (a : AnnotateArgs)
  | paperSearchCall (c : PaperSearchCall)
  | readPaperCall (itemRows : Nat)
  | questionPromptCall
  | finalWriteCall (args : FinalWriteArgs)
deriving Repr

/-- One step of the tool runtime: run a tool call against the runtime
state, returning the new state and the names of the events it appends
to the job's event log. -/
def toolStep (settings : Settings) (pageIndex : List (Int × List PyStr))
    (st : RState) (c : ToolCall) : RState × List String :=
  match c with
  | ToolCall.statusUpdate =>
    let st0 := recordTool st "mcp_status_update"
    ({ st0 with statusUpdates := st0.statusUpdates + 1 }, ["agent_status_update"])
  | ToolCall.pdfSearchCall query topK => ((pdfSearch pageIndex st query topK).1, [])
  | ToolCall.pdfReadLinesCall page => ((pdfReadLines pageIndex st page).1, [])
  | ToolCall.pdfJumpCall page => ((pdfJump pageIndex st page).1, [])
  | ToolCall.pdfAnnotateCall a =>
    let r := pdfAnnotate settings pageIndex st a
    (r.1, r.2.2)
  | ToolCall.paperSearchCall psc => paperSearchStep st psc
  | ToolCall.readPaperCall itemRows =>
    let st0 := recordTool st "read_paper"
    if itemRows = 0 then (st0, []) else (st0, ["read_paper_called"])
  | ToolCall.questionPromptCall => (recordTool st "question_prompt", [])
  | ToolCall.finalWriteCall args =>
    let r := reviewFinalMarkdownWrite settings st args
    (r.1, r.2.2)

/-- Run a sequence of tool calls from a state, collecting all events. -/
def runTools (settings : Settings) (pageIndex : List (Int × List PyStr)) :
    RState → List ToolCall → RState × List String
  | st, [] => (st, [])
  | st, c :: rest =>
    let r := toolStep settings pageIndex st c
    let k := runTools settings pageIndex r.1 rest
    (k.1, r.2 ++ k.2)

/-- State-key fields of `_extract_state` (`adapters/mineru.py`): the
`state` / `status` / `task_state` / `batch_state` keys of one JSON
object, kept when they hold strings. -/
structure StateFields where
  state : Option PyStr
  status : Option PyStr
  taskState : Option PyStr
  batchState : Option PyStr
deriving DecidableEq, Repr

/-- A `StateFields` record with no keys set. -/
def StateFields.empty : StateFields := ⟨none, none, none, none⟩

/-- The `data.result` nesting of a polling payload. -/
structure PollData where
  fields : StateFields
  result : Option StateFields
deriving DecidableEq, Repr

/-- A parse-polling JSON payload as read by `_extract_state` and
`_is_terminal_failure`: state keys at top level, under `data` and under
`data.result`, plus `code` (kept only when an integer) and
`msg`/`message`. -/
structure PollPayload where
  top : StateFields
  code : Option Int
  msg : Option PyStr
  message : Option PyStr
  data : Option PollData
deriving DecidableEq, Repr

/-- Last clause of `stateFieldOf`: the `batch_state` key. -/
def stateFieldRest3 (f : StateFields) : Option PyStr :=
  match f.batchState with
  | some v => if (pyStrip v).isEmpty then none else some (pyLower (pyStrip v))
  | none => none

/-- Continuation of `stateFieldOf` after the `status` key. -/
def stateFieldRest2 (f : StateFields) : Option PyStr :=
  match f.taskState with
  | some v => if (pyStrip v).isEmpty then stateFieldRest3 f else some (pyLower (pyStrip v))
  | none => stateFieldRest3 f

/-- Continuation of `stateFieldOf` after the `state` key. -/
def stateFieldRest1 (f : StateFields) : Option PyStr :=
  match f.status with
  | some v => if (pyStrip v).isEmpty then stateFieldRest2 f else some (pyLower (pyStrip v))
  | none => stateFieldRest2 f

/-- First non-empty string among the four state keys of one object
(`for key in ('state', 'status', 'task_state', 'batch_state')`). -/
def stateFieldOf (f : StateFields) : Option PyStr :=
  match f.state with
  | some v => if (pyStrip v).isEmpty then stateFieldRest1 f else some (pyLower (pyStrip v))
  | none => stateFieldRest1 f

/-- `_extract_state`: first non-empty state string of the payload, then
of `data`, then of `data.result`, stripped and lowercased; empty string
when no candidate has one. -/
def extractState (p : PollPayload) : PyStr :=
  match stateFieldOf p.top with
  | some v => v
  | none =>
    match p.data with
    | none => []
    | some d =>
      match stateFieldOf d.fields with
      | some v => v
      | none =>
        match d.result with
        | none => []
        | some r => (stateFieldOf r).getD []

/-- `str(payload.get('msg') or payload.get('message') or '').lower()`. -/
def pollMsg (p : PollPayload) : PyStr :=
  let raw :=
    match p.msg with
    | some s => if s.isEmpty then p.message.getD [] else s
    | none => p.message.getD []
  pyLower raw

/-- `_is_terminal_failure` (`adapters/mineru.py`). -/
def isTerminalFailure (p : PollPayload) : Bool :=
  let state := extractState p
  if state = "failed".toList || state = "error".toList || state = "aborted".toList then
    true
  else
    match p.code with
    | some code =>
      if code ≠ 0 then
        let msg := pollMsg p
        if code = -60012
            && (containsSub msg "task not found".toList || containsSub msg "expire".toList) then
          false
        else if !msg.isEmpty && !containsSub msg "processing".toList
            && !containsSub msg "running".toList then
          true
        else false
      else false
    | none => false

/-- Artifact paths recorded on the job record (`state.artifacts`), as
read by `_complete_with_existing_final_report`. -/
structure ArtifactPaths where
  finalMarkdownPath : Option PyStr
  reportPdfPath : Option PyStr
deriving DecidableEq, Repr

/-- The slice of a loaded `JobState` consulted by the recovery path. -/
structure JobSnap where
  finalReportReady : Bool
  artifacts : ArtifactPaths
  metaFinalReportSource : Option PyStr
deriving DecidableEq, Repr

/-- Filesystem and renderer oracle for the recovery path:
`finalMdExists` is `final_md_path.exists()` for the resolved
final-markdown path, `reportPdfExists` is the pre-existing report PDF,
and `renderOk` tells whether `_render_report_pdf` returns without
raising (after which the report PDF exists on disk). -/
structure RecoveryEnv where
  snap : Option JobSnap
  finalMdExists : Bool
  reportPdfExists : Bool
  renderOk : Bool
deriving DecidableEq, Repr

/-- Outcome of `_complete_with_existing_final_report`: whether the job
was recovered, the events appended, whether the PDF export was
attempted, and the resulting job-record updates. -/
structure RecoveryOutcome where
  recovered : Bool
  events : List String
  exportAttempted : Bool
  statusCompleted : Bool
  postExceptionRecovery : Bool
  pdfReady : Bool
deriving DecidableEq, Repr

/-- `_complete_with_existing_final_report` (`runner.py`): require a
loaded state and an existing final-markdown artifact; without a
persist-marker record `completed_recovery_skipped` and give up;
otherwise render the report PDF if it is missing, mark the job
`completed` with `post_exception_recovery=True`, and record
`completed_recovered`. -/
def completeWithExistingFinalReport (env : RecoveryEnv) : RecoveryOutcome :=
  match env.snap with
  | none => ⟨false, [], false, false, false, false⟩
  | some state =>
    if !env.finalMdExists then ⟨false, [], false, false, false, false⟩
    else
      let hasPersistMarker :=
        state.finalReportReady
        || !(pyStrip ((state.artifacts.finalMarkdownPath).getD [])).isEmpty
        || !(pyStrip ((state.metaFinalReportSource).getD [])).isEmpty
      if !hasPersistMarker then
        ⟨false, ["completed_recovery_skipped"], false, false, false, false⟩
      else
        let exportAttempted := !env.reportPdfExists
        let pdfExistsAfter := env.reportPdfExists || env.renderOk
        ⟨true, ["completed_recovered"], exportAttempted, true, true, pdfExistsAfter⟩

/-- Terminal job status after `run_job` handles a propagated
exception. -/
structure RunJobOutcome where
  events : List String
  finalStatusCompleted : Bool
  postExceptionRecovery : Bool
deriving DecidableEq, Repr

/-- Exception handler of `run_job` (`runner.py`): record
`pipeline_exception`, try the recovery path, and fail the job normally
(with a `failed` event) when recovery declines. -/
def runJobOnException (env : RecoveryEnv) : RunJobOutcome :=
  let rec1 := completeWithExistingFinalReport env
  if rec1.recovered then
    ⟨"pipeline_exception" :: rec1.events, true, rec1.postExceptionRecovery⟩
  else
    ⟨"pipeline_exception" :: rec1.events ++ ["failed"], false, false⟩

/-- Terminal-failure predicate as worded by the specification claim:
state in the failure set, or a non-zero integer code whose message does
not contain `processing`/`running`, except the benign
`-60012`/`task not found`/`expire` pattern.  (Stated from the spec for
comparison with the source's `isTerminalFailure`.) -/
def claimedTerminalFailure (p : PollPayload) : Bool :=
  let state := extractState p
  let msg := pollMsg p
  (state = "failed".toList || state = "error".toList || state = "aborted".toList)
  || (match p.code with
      | some code =>
        code ≠ 0 && !containsSub msg "processing".toList && !containsSub msg "running".toList
          && !(code = -60012
            && (containsSub msg "task not found".toList || containsSub msg "expire".toList))
      | none => false)

/-- C7 counterexample: a payload with `code=1` and no message at all is
terminal-failure under the claim's wording (its empty message contains
neither `processing` nor `running`) but `_is_terminal_failure` returns
`False`, because the source additionally requires a non-empty
message. -/
theorem c7Counterexample :
    claimedTerminalFailure ⟨StateFields.empty, some 1, none, none, none⟩ = true
    ∧ isTerminalFailure ⟨StateFields.empty, some 1, none, none, none⟩ = false := by
  constructor <;> decide

/-- Terminal-failure predicate as worded by the amended claim: as
`claimedTerminalFailure`, but the non-zero-code branch additionally
requires a NON-EMPTY message, which is what the source checks. -/
def claimedTerminalFailureAmended (p : PollPayload) : Bool :=
  let state := extractState p
  let msg := pollMsg p
  (state = "failed".toList || state = "error".toList || state = "aborted".toList)
  || (match p.code with
      | some code =>
        code ≠ 0 && !msg.isEmpty
          && !containsSub msg "processing".toList && !containsSub msg "running".toList
          && !(code = -60012
            && (containsSub msg "task not found".toList || containsSub msg "expire".toList))
      | none => false)

/-- C7 (amended): during parse polling, a payload is classified
terminal-failure exactly when its extracted state is one of `failed`,
`error`, `aborted`, or it carries an integer `code != 0` with a
non-empty message that contains neither `processing` nor `running`,
except that `code == -60012` with a message containing `task not found`
or `expire` is treated as non-terminal (polling continues). -/
theorem c7TerminalFailureAmended (p : PollPayload) :
    isTerminalFailure p = claimedTerminalFailureAmended p := by
  unfold isTerminalFailure claimedTerminalFailureAmended
  cases hc : p.code with
  | none => simp
  | some code =>
    by_cases hz : code = 0
    · subst hz
      simp
    · rcases hcp : containsSub (pollMsg p) "processing".toList
        <;> rcases hcr : containsSub (pollMsg p) "running".toList
        <;> rcases hm : (pollMsg p).isEmpty
        <;> by_cases hb : code = -60012
        <;> rcases hct : containsSub (pollMsg p) "task not found".toList
        <;> rcases hce : containsSub (pollMsg p) "expire".toList
        <;> simp_all [List.isEmpty_iff]

/-- C3 counterexample: with gate-enforcement OFF
(`enable_final_gates=False`, the first `Settings` field) and the
default `min_paper_search_calls_for_pdf_annotate=3`, a fresh job's
first `pdf_annotate` on a valid span still fails with
`paper_search_calls_not_met`: the source checks the G1 gate
unconditionally, not only under gate-enforcement. -/
theorem c3Counterexample :
    (pdfAnnotate ⟨false, 3, 3, 3, 10, 0, 0, true⟩ [(1, ["hello world".toList])]
      RState.init ⟨1, 1, 1, "typo here".toList, none, "suggestion".toList, none⟩).2.1
    = ⟨"error", some "paper_search_calls_not_met", none⟩ := by
  decide

/-- C3 (amended): `pdf_annotate` fails with
`reason=paper_search_calls_not_met` exactly when the cumulative
paper-search total calls are below
`max(0, min_paper_search_calls_for_pdf_annotate)` — regardless of the
`enable_final_gates` switch, which `pdf_annotate` never consults. -/
theorem c3AnnotateGateAmended (settings : Settings)
    (pageIndex : List (Int × List PyStr)) (st : RState) (a : AnnotateArgs) :
    (pdfAnnotate settings pageIndex st a).2.1.reason
      = some "paper_search_calls_not_met"
    ↔ st.paperSearchUsage.totalCalls
      < (max 0 settings.minPaperSearchCallsForPdfAnnotate).toNat := by
  unfold pdfAnnotate
  by_cases hgate : st.paperSearchUsage.totalCalls
      < (max 0 settings.minPaperSearchCallsForPdfAnnotate).toNat
  · have : (recordTool st "pdf_annotate").paperSearchUsage.totalCalls
        < (max 0 settings.minPaperSearchCallsForPdfAnnotate).toNat := hgate
    simp only [if_pos this]
    simpa using hgate
  · have hng : ¬(recordTool st "pdf_annotate").paperSearchUsage.totalCalls
        < (max 0 settings.minPaperSearchCallsForPdfAnnotate).toNat := hgate
    simp only [if_neg hng]
    constructor
    · intro h
      exfalso
      revert h
      cases alGetI pageIndex a.page with
      | none => simp
      | some lines =>
        by_cases hl : lines.isEmpty
        · simp [hl]
        · simp only [hl, Bool.false_eq_true, if_false]
          split
          · simp
          · split
            · simp
            · simp
    · intro h
      exact absurd h hgate

/-- C4: when an exception propagates out of the agent/export stage and
the final-markdown artifact exists, the controller completes the job
with `post_exception_recovery=true` (attempting PDF export whenever the
report PDF is not already on disk) if a persist-marker is set; without
a persist-marker it records `completed_recovery_skipped` and the job
ends failed. -/
theorem c4PostExceptionRecovery (env : RecoveryEnv) (snap : JobSnap)
    (hsnap : env.snap = some snap) (hexists : env.finalMdExists = true) :
    ((snap.finalReportReady
        || !(pyStrip ((snap.artifacts.finalMarkdownPath).getD [])).isEmpty
        || !(pyStrip ((snap.metaFinalReportSource).getD [])).isEmpty) = true →
      (runJobOnException env).finalStatusCompleted = true
      ∧ (runJobOnException env).postExceptionRecovery = true
      ∧ (env.reportPdfExists = false →
          (completeWithExistingFinalReport env).exportAttempted = true))
    ∧ ((snap.finalReportReady
        || !(pyStrip ((snap.artifacts.finalMarkdownPath).getD [])).isEmpty
        || !(pyStrip ((snap.metaFinalReportSource).getD [])).isEmpty) = false →
      "completed_recovery_skipped" ∈ (runJobOnException env).events
      ∧ (runJobOnException env).finalStatusCompleted = false) := by
  constructor
  · intro hm
    have hrec : completeWithExistingFinalReport env
        = ⟨true, ["completed_recovered"], !env.reportPdfExists, true, true,
           env.reportPdfExists || env.renderOk⟩ := by
      unfold completeWithExistingFinalReport
      rw [hsnap]
      simp only [hexists, Bool.not_true, Bool.false_eq_true, if_false]
      rw [if_neg (by simp [hm])]
    refine ⟨?_, ?_, ?_⟩
    · unfold runJobOnException
      rw [hrec]
      rfl
    · unfold runJobOnException
      rw [hrec]
      rfl
    · intro hpdf
      rw [hrec, hpdf]
      rfl
  · intro hm
    have hrec : completeWithExistingFinalReport env
        = ⟨false, ["completed_recovery_skipped"], false, false, false, false⟩ := by
      unfold completeWithExistingFinalReport
      rw [hsnap]
      simp only [hexists, Bool.not_true, Bool.false_eq_true, if_false]
      rw [if_pos (by simp [hm])]
    unfold runJobOnException
    rw [hrec]
    constructor
    · simp
    · rfl

/-- C4 witness: a concrete recovered job (persist-marker via
`final_report_ready`, no pre-existing report PDF) satisfies the
hypotheses and conclusions of `c4PostExceptionRecovery`. -/
theorem c4PostExceptionRecoveryWitness :
    let env : RecoveryEnv :=
      ⟨some ⟨true, ⟨some "/j/final_report.md".toList, none⟩, none⟩, true, false, true⟩
    (runJobOnException env).finalStatusCompleted = true
    ∧ (runJobOnException env).postExceptionRecovery = true
    ∧ (completeWithExistingFinalReport env).exportAttempted = true := by
  intro env
  have h := c4PostExceptionRecovery env
    ⟨true, ⟨some "/j/final_report.md".toList, none⟩, none⟩ rfl rfl
  have h1 := h.1 (by decide)
  exact ⟨h1.1, h1.2.1, h1.2.2 rfl⟩

/-- C1 counterexample: calling `review_final_markdown_write` on a job
whose final report is already committed (`final_markdown_text`
non-empty) takes the post-commit short-circuit and appends NO event at
all — in particular it does not emit
`final_report_write_ignored_after_commit`, which appears nowhere in the
source — while still returning the claimed
`ok / task_completed / final_report_persisted` payload. -/
theorem c1Counterexample :
    let st : RState :=
      { RState.init with finalMarkdownText := some "## Summary\nDone.".toList }
    let r := reviewFinalMarkdownWrite ⟨false, 3, 3, 3, 10, 0, 0, true⟩ st
      FinalWriteArgs.empty
    r.2.2 = [] ∧ r.2.1.status = "ok" ∧ r.2.1.taskCompleted = some true := by
  decide

/-- C1 (amended): after a successful final commit, every further
`review_final_markdown_write` call returns `status=ok` with
`task_completed=true` and `final_report_persisted=true`, mutates
neither the section draft nor the final-markdown artifact on disk, and
emits NO event (the source has no
`final_report_write_ignored_after_commit` event). -/
theorem c1ShortCircuitAmended (settings : Settings) (st : RState)
    (args : FinalWriteArgs) (h : strTruthy st.finalMarkdownText = true) :
    (reviewFinalMarkdownWrite settings st args).2.1.status = "ok"
    ∧ (reviewFinalMarkdownWrite settings st args).2.1.taskCompleted = some true
    ∧ (reviewFinalMarkdownWrite settings st args).2.1.finalReportPersisted = some true
    ∧ (reviewFinalMarkdownWrite settings st args).1.finalReportDraftSections
        = st.finalReportDraftSections
    ∧ (reviewFinalMarkdownWrite settings st args).1.finalMarkdownText
        = st.finalMarkdownText
    ∧ (reviewFinalMarkdownWrite settings st args).1.diskFinalWrites
        = st.diskFinalWrites
    ∧ (reviewFinalMarkdownWrite settings st args).2.2 = [] := by
  have h0 : strTruthy (recordTool st "review_final_markdown_write").finalMarkdownText
      = true := h
  unfold reviewFinalMarkdownWrite
  rw [if_pos h0]
  exact ⟨rfl, rfl, rfl, rfl, rfl, rfl, rfl⟩

/-- C1 witness: `c1ShortCircuitAmended` at a concrete committed
state. -/
theorem c1ShortCircuitAmendedWitness :
    let st : RState := { RState.init with finalMarkdownText := some "done".toList }
    strTruthy st.finalMarkdownText = true
    ∧ ((reviewFinalMarkdownWrite ⟨true, 3, 3, 3, 10, 0, 0, true⟩ st
        FinalWriteArgs.empty).2.1.status = "ok"
      ∧ (reviewFinalMarkdownWrite ⟨true, 3, 3, 3, 10, 0, 0, true⟩ st
        FinalWriteArgs.empty).2.2 = []) := by
  intro st
  refine ⟨by decide, ?_, ?_⟩
  · exact (c1ShortCircuitAmended ⟨true, 3, 3, 3, 10, 0, 0, true⟩ st
      FinalWriteArgs.empty (by decide)).1
  · exact (c1ShortCircuitAmended ⟨true, 3, 3, 3, 10, 0, 0, true⟩ st
      FinalWriteArgs.empty (by decide)).2.2.2.2.2.2

/-- The `pdf_search` ordering is transitive. -/
theorem hitLeTrans (a b c : PdfSearchHit) (hab : hitLe a b = true)
    (hbc : hitLe b c = true) : hitLe a c = true := by
  unfold hitLe at *
  rw [decide_eq_true_iff] at *
  rcases hab with h1 | ⟨h1, h1'⟩ <;> rcases hbc with h2 | ⟨h2, h2'⟩
  · exact Or.inl (lt_trans h2 h1)
  · exact Or.inl (h2 ▸ h1)
  · exact Or.inl (h1 ▸ h2)
  · refine Or.inr ⟨h1.trans h2, ?_⟩
    rcases h1' with h3 | ⟨h3, h3'⟩ <;> rcases h2' with h4 | ⟨h4, h4'⟩
    · exact Or.inl (lt_trans h3 h4)
    · exact Or.inl (h4 ▸ h3)
    · exact Or.inl (h3 ▸ h4)
    · exact Or.inr ⟨h3.trans h4, le_trans h3' h4'⟩

/-- The `pdf_search` ordering is total. -/
theorem hitLeTotal (a b : PdfSearchHit) : (hitLe a b || hitLe b a) = true := by
  unfold hitLe
  rcases lt_trichotomy a.score b.score with h | h | h
  · simp only [Bool.or_eq_true, decide_eq_true_iff]
    right
    exact Or.inl h
  · rcases lt_trichotomy a.page b.page with h2 | h2 | h2
    · simp only [Bool.or_eq_true, decide_eq_true_iff]
      left
      exact Or.inr ⟨h, Or.inl h2⟩
    · rcases le_total a.line b.line with h3 | h3
      · simp only [Bool.or_eq_true, decide_eq_true_iff]
        left
        exact Or.inr ⟨h, Or.inr ⟨h2, h3⟩⟩
      · simp only [Bool.or_eq_true, decide_eq_true_iff]
        right
        exact Or.inr ⟨h.symm, Or.inr ⟨h2.symm, h3⟩⟩
    · simp only [Bool.or_eq_true, decide_eq_true_iff]
      right
      exact Or.inr ⟨h.symm, Or.inl h2⟩
  · simp only [Bool.or_eq_true, decide_eq_true_iff]
    left
    exact Or.inl h

/-- Totality instance for the `pdf_search` ordering. -/
instance : IsTotal PdfSearchHit (fun a b => hitLe a b = true) :=
  ⟨fun a b => by simpa [Bool.or_eq_true] using hitLeTotal a b⟩

/-- Transitivity instance for the `pdf_search` ordering. -/
instance : IsTrans PdfSearchHit (fun a b => hitLe a b = true) :=
  ⟨hitLeTrans⟩

/-- C9 counterexample: with `top_k = 0` the source evaluates
`int(top_k or 8)` — `0` is falsy, so the default `8` is used — and a
two-line page yields 2 hits, refuting the claimed bound
`clamp(top_k, 1, 50) = clamp(0, 1, 50) = 1`. -/
theorem c9Counterexample :
    ((pdfSearch [(1, ["alpha x".toList, "alpha y".toList])] RState.init
      "alpha".toList 0).2.hits.length = 2)
    ∧ (max 1 (min 50 (0 : Int))).toNat = 1 := by
  constructor
  · decide
  · decide

/-- C9 (amended): for a `pdf_search` call, an empty (or
whitespace-only) query returns `error` with `reason=empty_query`; a
non-empty query returns `ok` with at most
`clamp(top_k, 1, 50)` hits — where `top_k = 0` is first replaced by the
default `8` (`int(top_k or 8)`) — sorted by score descending, then page
ascending, then line ascending, each hit's score being the
case-insensitive whitespace-token occurrence count with the full query
as substring fallback (`scoreLine`). -/
theorem c9PdfSearchAmended (pageIndex : List (Int × List PyStr)) (st : RState)
    (query : PyStr) (topK : Int) :
    ((pyStrip query).isEmpty = true →
      (pdfSearch pageIndex st query topK).2.status = "error"
      ∧ (pdfSearch pageIndex st query topK).2.reason = some "empty_query")
    ∧ ((pyStrip query).isEmpty = false →
      (pdfSearch pageIndex st query topK).2.status = "ok"
      ∧ (pdfSearch pageIndex st query topK).2.hits.length
          ≤ (max 1 (min 50 (if topK = 0 then 8 else topK))).toNat
      ∧ List.Pairwise (fun a b => hitLe a b = true)
          (pdfSearch pageIndex st query topK).2.hits
      ∧ ∀ hit ∈ (pdfSearch pageIndex st query topK).2.hits,
          scoreLine
            (let t0 := wsTokens (pyLower (pyStrip query))
             if t0.isEmpty then [pyLower (pyStrip query)] else t0)
            (pyLower (pyStrip query)) hit.text = some hit.score) := by
  constructor
  · intro he
    unfold pdfSearch
    rw [if_pos he]
    exact ⟨rfl, rfl⟩
  · intro hne
    unfold pdfSearch
    rw [if_neg (by simp [hne])]
    refine ⟨rfl, ?_, ?_, ?_⟩
    · simpa using Nat.le_of_eq_of_le (List.length_take _ _) (Nat.min_le_left _ _)
    · have hs := List.sorted_insertionSort (fun a b => hitLe a b = true)
        (List.filterMap (fun row =>
          (scoreLine
            (let t0 := wsTokens (pyLower (pyStrip query))
             if t0.isEmpty then [pyLower (pyStrip query)] else t0)
            (pyLower (pyStrip query)) row.2.2).map
            (fun s => (⟨row.1, row.2.1, s, row.2.2⟩ : PdfSearchHit)))
          (flattenPageIndex pageIndex))
      exact List.Pairwise.sublist (List.take_sublist _ _) hs
    · intro hit hmem
      have hmem2 := List.mem_of_mem_take hmem
      have hmem3 := (List.perm_insertionSort (fun a b => hitLe a b = true) _).mem_iff.mp hmem2
      rw [List.mem_filterMap] at hmem3
      obtain ⟨row, _, hmap⟩ := hmem3
      rw [Option.map_eq_some'] at hmap
      obtain ⟨s, hscore, hhit⟩ := hmap
      rw [← hhit] at *
      simpa using hscore

/-- Head of a non-empty `dropWhile` result fails the predicate. -/
theorem dropWhileHeadFalse {α : Type} (p : α → Bool) :
    ∀ {l : List α} {c rest}, l.dropWhile p = c :: rest → p c = false := by
  intro l
  induction l with
  | nil => intro c rest h; simp [List.dropWhile] at h
  | cons a t ih =>
    intro c rest h
    rw [List.dropWhile_cons] at h
    split at h
    · exact ih h
    · cases h
      rename_i hc
      simpa using hc

/-- `dropWhile` is idempotent. -/
theorem dropWhileIdem {α : Type} (p : α → Bool) (l : List α) :
    (l.dropWhile p).dropWhile p = l.dropWhile p := by
  cases h : l.dropWhile p with
  | nil => rfl
  | cons c rest =>
    rw [List.dropWhile_cons, if_neg]
    simp [dropWhileHeadFalse p h]

/-- `pyLStrip` is idempotent. -/
theorem pyLStripIdem (s : PyStr) : pyLStrip (pyLStrip s) = pyLStrip s :=
  dropWhileIdem isPyWs s

/-- `pyRStrip` is idempotent. -/
theorem pyRStripIdem (s : PyStr) : pyRStrip (pyRStrip s) = pyRStrip s := by
  unfold pyRStrip
  rw [List.reverse_reverse, dropWhileIdem]

/-- `pyRStrip l` is a prefix of `l`. -/
theorem pyRStripPrefixOf (l : PyStr) : pyRStrip l <+: l := by
  unfold pyRStrip
  have h : l.reverse.dropWhile isPyWs <:+ l.reverse := List.dropWhile_suffix _
  have := List.reverse_prefix.mpr h
  simpa using this

/-- `pyStrip` is idempotent. -/
theorem pyStripIdem (s : PyStr) : pyStrip (pyStrip s) = pyStrip s := by
  unfold pyStrip
  have hls : pyLStrip (pyRStrip (pyLStrip s)) = pyRStrip (pyLStrip s) := by
    cases hy : pyLStrip s with
    | nil => simp [pyRStrip, pyLStrip, List.dropWhile]
    | cons c t =>
      have hc : isPyWs c = false := dropWhileHeadFalse isPyWs hy
      rcases pyRStripPrefixOf (c :: t) with ⟨u, hu⟩
      cases hr : pyRStrip (c :: t) with
      | nil => simp [pyLStrip, List.dropWhile]
      | cons c' t' =>
        rw [hr] at hu
        have hcc : c' = c := by
          have := congrArg (fun l => l.head?) hu
          simpa using this
        subst hcc
        unfold pyLStrip
        rw [List.dropWhile_cons, if_neg]
        simp [hc]
  rw [hls, pyRStripIdem]

/-- `alSet` never returns the empty dict. -/
theorem alSetNeNil {β : Type} (m : List (String × β)) (k : String) (v : β) :
    alSet m k v ≠ [] := by
  unfold alSet
  split
  · intro h
    rename_i hmem
    rcases List.map_eq_nil_iff.mp h with rfl
    simp at hmem
  · simp

/-- `alUpdate` with a non-empty update map is non-empty. -/
theorem alUpdateNeNil {β : Type} (m : List (String × β)) :
    ∀ other : List (String × β), other ≠ [] → alUpdate m other ≠ [] := by
  intro other
  induction other generalizing m with
  | nil => intro h; exact absurd rfl h
  | cons p rest ih =>
    intro _
    unfold alUpdate
    rw [List.foldl_cons]
    cases hr : rest with
    | nil => simpa [alUpdate] using alSetNeNil m p.1 p.2
    | cons q qs =>
      subst hr
      have h2 := ih (alSet m p.1 p.2) (by simp)
      simpa [alUpdate] using h2

/-- The section-draft update and the `partial` outcome shared by the
draft-accumulation branch of `review_final_markdown_write`: with a
non-empty incoming map and at least one required section still missing
after the merge, the tool saves the draft, bumps the version, emits
`final_report_draft_saved` and reports the missing sections. -/
theorem finalWriteMergePartialBranch (settings : Settings) (st0 : RState)
    (incoming : List (String × PyStr)) (hinc : incoming ≠ [])
    (hmiss : requiredSectionOrder.filter
      (fun sid => !(completedOf (alUpdate
        (normalizeFinalReportSections st0.finalReportDraftSections) incoming)).contains sid)
      ≠ []) :
    finalWriteMerge settings st0 incoming =
      ({ st0 with
          finalReportDraftSections :=
            alUpdate (normalizeFinalReportSections st0.finalReportDraftSections) incoming,
          finalReportDraftVersion := max 1 (st0.finalReportDraftVersion + 1) },
       fwProgress
         (completedOf (alUpdate
           (normalizeFinalReportSections st0.finalReportDraftSections) incoming))
         (requiredSectionOrder.filter
           (fun sid => !(completedOf (alUpdate
             (normalizeFinalReportSections st0.finalReportDraftSections) incoming)).contains sid))
         (max 1 (st0.finalReportDraftVersion + 1))
         "partial" "required_sections_missing" true,
       ["final_report_draft_saved"]) := by
  unfold finalWriteMerge
  have hne : incoming.isEmpty = false := by
    cases incoming
    · exact absurd rfl hinc
    · rfl
  rw [hne]
  simp only [Bool.not_false, if_true]
  rw [if_neg (by
    simpa using alUpdateNeNil
      (normalizeFinalReportSections st0.finalReportDraftSections) incoming hinc)]
  rw [if_pos (by simpa [List.isEmpty_iff] using hmiss)]

/-- C10 (implicit): a `review_final_markdown_write` call that passes
only a non-empty `markdown` blob from which no required section parses
(and no legacy fields, no `section_id`) is not rejected: before any
commit, on an empty draft, the whole blob is stored as the `summary`
section and the call returns `status=partial` with
`reason=required_sections_missing` and `summary` completed. -/
theorem c10MarkdownBlobFallback (settings : Settings) (st : RState) (blob : PyStr)
    (h1 : strTruthy st.finalMarkdownText = false)
    (h2 : st.finalReportDraftSections = [])
    (h3 : (pyStrip blob).isEmpty = false)
    (h4 : extractRequiredSections (pyStrip blob) = []) :
    (reviewFinalMarkdownWrite settings st
      { FinalWriteArgs.empty with markdown := some blob }).2.1.status = "partial"
    ∧ (reviewFinalMarkdownWrite settings st
      { FinalWriteArgs.empty with markdown := some blob }).2.1.reason
        = some "required_sections_missing"
    ∧ alGet (reviewFinalMarkdownWrite settings st
      { FinalWriteArgs.empty with markdown := some blob }).1.finalReportDraftSections
        "summary" = some (pyStrip blob)
    ∧ (reviewFinalMarkdownWrite settings st
      { FinalWriteArgs.empty with markdown := some blob }).2.1.completedSections
        = some ["summary"] := by
  have hincoming : finalWriteIncoming { FinalWriteArgs.empty with markdown := some blob }
      = Except.ok [("summary", pyStrip blob)] := by
    unfold finalWriteIncoming incomingSectionsBase
    simp only [FinalWriteArgs.empty]
    rw [show coerceMarkdownText (some blob) = pyStrip blob from rfl]
    rw [show buildSectionsFromLegacyFields none none none none none none
      = ([] : List (String × PyStr)) from rfl]
    rw [h4]
    simp [pyOrStr, h3]
  have hdraft :
      alUpdate (normalizeFinalReportSections
        (recordTool st "review_final_markdown_write").finalReportDraftSections)
        [("summary", pyStrip blob)] = [("summary", pyStrip blob)] := by
    have : (recordTool st "review_final_markdown_write").finalReportDraftSections = [] := h2
    rw [this]
    rfl
  have hcompleted : completedOf [("summary", pyStrip blob)] = ["summary"] := by
    unfold completedOf requiredSectionOrder requiredFinalReportSections
    simp only [List.map_cons, List.map_nil, List.filter]
    rw [show alGet [("summary", pyStrip blob)] "summary" = some (pyStrip blob) from rfl]
    simp only [Option.getD_some, pyStripIdem, h3]
    rfl
  have hmerge := finalWriteMergePartialBranch settings
    (recordTool st "review_final_markdown_write") [("summary", pyStrip blob)]
    (by simp)
    (by
      rw [hdraft, hcompleted]
      decide)
  rw [hdraft, hcompleted] at hmerge
  have hrun : reviewFinalMarkdownWrite settings st
      { FinalWriteArgs.empty with markdown := some blob }
      = finalWriteMerge settings (recordTool st "review_final_markdown_write")
          [("summary", pyStrip blob)] := by
    unfold reviewFinalMarkdownWrite
    have hft : strTruthy (recordTool st "review_final_markdown_write").finalMarkdownText
        = false := h1
    rw [if_neg (by simp [hft])]
    rw [hincoming]
  rw [hrun, hmerge]
  refine ⟨rfl, rfl, ?_, rfl⟩
  rfl

/-- C10 witness: `c10MarkdownBlobFallback` at a concrete fresh job and
a concrete heading-free markdown blob. -/
theorem c10MarkdownBlobFallbackWitness :
    (strTruthy RState.init.finalMarkdownText = false
      ∧ RState.init.finalReportDraftSections = []
      ∧ (pyStrip "Just a plain review blob.".toList).isEmpty = false
      ∧ extractRequiredSections (pyStrip "Just a plain review blob.".toList) = [])
    ∧ (reviewFinalMarkdownWrite ⟨false, 3, 3, 3, 10, 0, 0, true⟩ RState.init
        { FinalWriteArgs.empty with markdown := some "Just a plain review blob.".toList }
       ).2.1.status = "partial"
    ∧ alGet (reviewFinalMarkdownWrite ⟨false, 3, 3, 3, 10, 0, 0, true⟩ RState.init
        { FinalWriteArgs.empty with markdown := some "Just a plain review blob.".toList }
       ).1.finalReportDraftSections "summary"
        = some (pyStrip "Just a plain review blob.".toList) := by
  refine ⟨⟨by decide, by decide, by decide, by decide⟩, ?_, ?_⟩
  · exact (c10MarkdownBlobFallback ⟨false, 3, 3, 3, 10, 0, 0, true⟩ RState.init
      "Just a plain review blob.".toList (by decide) (by decide) (by decide) (by decide)).1
  · exact (c10MarkdownBlobFallback ⟨false, 3, 3, 3, 10, 0, 0, true⟩ RState.init
      "Just a plain review blob.".toList (by decide) (by decide) (by decide)
      (by decide)).2.2.1

/-- Decidable equality for `Except`, used to evaluate
`finalWriteIncoming` at concrete inputs. -/
instance {ε α : Type} [DecidableEq ε] [DecidableEq α] : DecidableEq (Except ε α) := by
  intro a b
  cases a <;> cases b
  case error.error x y =>
    exact if h : x = y then isTrue (by rw [h]) else isFalse (by intro hh; cases hh; exact h rfl)
  case ok.ok x y =>
    exact if h : x = y then isTrue (by rw [h]) else isFalse (by intro hh; cases hh; exact h rfl)
  case error.ok x y => exact isFalse (by intro hh; cases hh)
  case ok.error x y => exact isFalse (by intro hh; cases hh)

/-- C5: a `review_final_markdown_write` call made before any commit
that contributes valid section content (`finalWriteIncoming` accepts it
with a non-empty incoming map) while at least one required section is
still missing from the merged draft returns `status=partial` with
`reason=required_sections_missing`, `retry_required=true`, the
completed and missing section lists, the bumped `draft_version`, and
`next_required_section` equal to the first missing section in canonical
order; it does not commit (`final_markdown_text` stays empty, no
final-markdown artifact write) and emits `final_report_draft_saved`. -/
theorem c5PartialSectionWrite (settings : Settings) (st : RState)
    (args : FinalWriteArgs) (incoming : List (String × PyStr))
    (h0 : strTruthy st.finalMarkdownText = false)
    (h1 : finalWriteIncoming args = Except.ok incoming)
    (h2 : incoming ≠ [])
    (h3 : requiredSectionOrder.filter
      (fun sid => !(completedOf (alUpdate
        (normalizeFinalReportSections st.finalReportDraftSections) incoming)).contains sid)
      ≠ []) :
    (reviewFinalMarkdownWrite settings st args).2.1
      = fwProgress
          (completedOf (alUpdate
            (normalizeFinalReportSections st.finalReportDraftSections) incoming))
          (requiredSectionOrder.filter
            (fun sid => !(completedOf (alUpdate
              (normalizeFinalReportSections st.finalReportDraftSections) incoming)).contains
              sid))
          (max 1 (st.finalReportDraftVersion + 1))
          "partial" "required_sections_missing" true
    ∧ (reviewFinalMarkdownWrite settings st args).2.2 = ["final_report_draft_saved"]
    ∧ strTruthy (reviewFinalMarkdownWrite settings st args).1.finalMarkdownText = false
    ∧ (reviewFinalMarkdownWrite settings st args).1.diskFinalWrites
        = st.diskFinalWrites
    ∧ (reviewFinalMarkdownWrite settings st args).1.finalReportDraftSections
        = alUpdate (normalizeFinalReportSections st.finalReportDraftSections) incoming := by
  have hrun : reviewFinalMarkdownWrite settings st args
      = finalWriteMerge settings (recordTool st "review_final_markdown_write") incoming := by
    unfold reviewFinalMarkdownWrite
    have hft : strTruthy (recordTool st "review_final_markdown_write").finalMarkdownText
        = false := h0
    rw [if_neg (by simp [hft]), h1]
  have hmerge := finalWriteMergePartialBranch settings
    (recordTool st "review_final_markdown_write") incoming h2 h3
  rw [hrun, hmerge]
  exact ⟨rfl, rfl, h0, rfl, rfl⟩

set_option maxRecDepth 40000 in
/-- C5 witness: `c5PartialSectionWrite` on a fresh job submitting the
`summary` section alone. -/
theorem c5PartialSectionWriteWitness :
    (strTruthy RState.init.finalMarkdownText = false
      ∧ finalWriteIncoming { FinalWriteArgs.empty with
          sectionId := some "summary".toList,
          sectionContent := some (FieldVal.str "This paper studies parsing.".toList) }
        = Except.ok [("summary", "This paper studies parsing.".toList)])
    ∧ (reviewFinalMarkdownWrite ⟨false, 3, 3, 3, 10, 0, 0, true⟩ RState.init
        { FinalWriteArgs.empty with
          sectionId := some "summary".toList,
          sectionContent := some (FieldVal.str "This paper studies parsing.".toList) }).2.2
      = ["final_report_draft_saved"] := by
  refine ⟨⟨by decide, by decide⟩, ?_⟩
  exact (c5PartialSectionWrite ⟨false, 3, 3, 3, 10, 0, 0, true⟩ RState.init
    { FinalWriteArgs.empty with
      sectionId := some "summary".toList,
      sectionContent := some (FieldVal.str "This paper studies parsing.".toList) }
    [("summary", "This paper studies parsing.".toList)]
    (by decide) (by decide) (by decide) (by decide)).2.1

/-- C9 witness: `c9PdfSearchAmended` at a concrete page index and
query, discharging the non-empty-query hypothesis. -/
theorem c9PdfSearchAmendedWitness :
    ((pyStrip "alpha beta".toList).isEmpty = false)
    ∧ (pdfSearch [(1, ["alpha beta here".toList, "nothing".toList])] RState.init
        "alpha beta".toList 5).2.status = "ok"
    ∧ (pdfSearch [(1, ["alpha beta here".toList, "nothing".toList])] RState.init
        "alpha beta".toList 5).2.hits.length
      ≤ (max 1 (min 50 (if (5 : Int) = 0 then 8 else (5 : Int)))).toNat := by
  refine ⟨by decide, ?_, ?_⟩
  · exact ((c9PdfSearchAmended [(1, ["alpha beta here".toList, "nothing".toList])]
      RState.init "alpha beta".toList 5).2 (by decide)).1
  · exact ((c9PdfSearchAmended [(1, ["alpha beta here".toList, "nothing".toList])]
      RState.init "alpha beta".toList 5).2 (by decide)).2.1

/-- Number of `final_report_persisted` records in an event list. -/
def persistedCount (evs : List String) : Nat :=
  evs.count "final_report_persisted"

/-- `pdf_search` never touches `final_markdown_text`. -/
theorem pdfSearchFmt (pageIndex : List (Int × List PyStr)) (st : RState)
    (q : PyStr) (k : Int) :
    (pdfSearch pageIndex st q k).1.finalMarkdownText = st.finalMarkdownText := rfl

/-- `pdf_read_lines` never touches `final_markdown_text`. -/
theorem pdfReadLinesFmt (pageIndex : List (Int × List PyStr)) (st : RState)
    (p : Int) :
    (pdfReadLines pageIndex st p).1.finalMarkdownText = st.finalMarkdownText := by
  unfold pdfReadLines
  split
  · rfl
  · split <;> rfl

/-- `pdf_jump` never touches `final_markdown_text`. -/
theorem pdfJumpFmt (pageIndex : List (Int × List PyStr)) (st : RState) (p : Int) :
    (pdfJump pageIndex st p).1.finalMarkdownText = st.finalMarkdownText := by
  unfold pdfJump
  split
  · rfl
  · split <;> rfl

/-- `pdf_annotate` never touches `final_markdown_text` and never emits
`final_report_persisted`. -/
theorem pdfAnnotateFmt (settings : Settings) (pageIndex : List (Int × List PyStr))
    (st : RState) (a : AnnotateArgs) :
    (pdfAnnotate settings pageIndex st a).1.finalMarkdownText = st.finalMarkdownText
    ∧ persistedCount (pdfAnnotate settings pageIndex st a).2.2 = 0 := by
  unfold pdfAnnotate
  dsimp only
  split
  · exact ⟨rfl, rfl⟩
  · split
    · exact ⟨rfl, rfl⟩
    · split
      · exact ⟨rfl, rfl⟩
      · split
        · exact ⟨rfl, rfl⟩
        · split
          · exact ⟨rfl, rfl⟩
          · exact ⟨rfl, rfl⟩

/-- `paper_search` never touches `final_markdown_text`. -/
theorem paperSearchFmt (st : RState) (c : PaperSearchCall) :
    (paperSearchStep st c).1.finalMarkdownText = st.finalMarkdownText := rfl

/-- Outcome split of `finalWriteMerge`: either no `final_report_persisted`
event with `final_markdown_text` unchanged, or exactly one with
`final_markdown_text` latched to a non-empty value. -/
theorem finalWriteMergeCommit (settings : Settings) (st0 : RState)
    (incoming : List (String × PyStr)) :
    (persistedCount (finalWriteMerge settings st0 incoming).2.2 = 0
      ∧ (finalWriteMerge settings st0 incoming).1.finalMarkdownText
          = st0.finalMarkdownText)
    ∨ (persistedCount (finalWriteMerge settings st0 incoming).2.2 = 1
      ∧ strTruthy (finalWriteMerge settings st0 incoming).1.finalMarkdownText = true) := by
  unfold finalWriteMerge
  dsimp only
  repeat' split
  all_goals try exact Or.inl ⟨rfl, rfl⟩
  all_goals refine Or.inr ⟨rfl, ?_⟩
  all_goals simp only [setFinalMarkdown, strTruthy]
  all_goals simp_all

/-- Outcome split of `review_final_markdown_write` for the at-most-one
commit argument: either no `final_report_persisted` event and an
unchanged `final_markdown_text`, or (only from an uncommitted state)
exactly one such event with `final_markdown_text` latched non-empty. -/
theorem reviewFinalWriteCommit (settings : Settings) (st : RState)
    (args : FinalWriteArgs) :
    (persistedCount (reviewFinalMarkdownWrite settings st args).2.2 = 0
      ∧ (reviewFinalMarkdownWrite settings st args).1.finalMarkdownText
          = st.finalMarkdownText)
    ∨ (strTruthy st.finalMarkdownText = false
      ∧ persistedCount (reviewFinalMarkdownWrite settings st args).2.2 = 1
      ∧ strTruthy (reviewFinalMarkdownWrite settings st args).1.finalMarkdownText
          = true) := by
  unfold reviewFinalMarkdownWrite
  dsimp only
  split
  · exact Or.inl ⟨rfl, rfl⟩
  · rename_i hft
    split
    · exact Or.inl ⟨rfl, rfl⟩
    · rename_i incoming heq
      rcases finalWriteMergeCommit settings (recordTool st "review_final_markdown_write")
          incoming with ⟨h1, h2⟩ | ⟨h1, h2⟩
      · exact Or.inl ⟨h1, h2⟩
      · exact Or.inr ⟨by simpa using hft, h1, h2⟩

/-- Per-step commit discipline of the tool runtime: a tool call either
appends no `final_report_persisted` event and leaves
`final_markdown_text` unchanged, or it is the committing
`review_final_markdown_write` from an uncommitted state, appending
exactly one and latching `final_markdown_text`. -/
theorem toolStepCommit (settings : Settings) (pageIndex : List (Int × List PyStr))
    (st : RState) (c : ToolCall) :
    (persistedCount (toolStep settings pageIndex st c).2 = 0
      ∧ (toolStep settings pageIndex st c).1.finalMarkdownText = st.finalMarkdownText)
    ∨ (strTruthy st.finalMarkdownText = false
      ∧ persistedCount (toolStep settings pageIndex st c).2 = 1
      ∧ strTruthy (toolStep settings pageIndex st c).1.finalMarkdownText = true) := by
  cases c with
  | statusUpdate => exact Or.inl ⟨rfl, rfl⟩
  | pdfSearchCall q k => exact Or.inl ⟨rfl, pdfSearchFmt pageIndex st q k⟩
  | pdfReadLinesCall p => exact Or.inl ⟨rfl, pdfReadLinesFmt pageIndex st p⟩
  | pdfJumpCall p => exact Or.inl ⟨rfl, pdfJumpFmt pageIndex st p⟩
  | pdfAnnotateCall a =>
    exact Or.inl ⟨(pdfAnnotateFmt settings pageIndex st a).2,
      (pdfAnnotateFmt settings pageIndex st a).1⟩
  | paperSearchCall psc => exact Or.inl ⟨rfl, paperSearchFmt st psc⟩
  | readPaperCall n =>
    unfold toolStep
    dsimp only
    split
    · exact Or.inl ⟨rfl, rfl⟩
    · exact Or.inl ⟨rfl, rfl⟩
  | questionPromptCall => exact Or.inl ⟨rfl, rfl⟩
  | finalWriteCall args => exact reviewFinalWriteCommit settings st args

/-- `runTools` over an appended call runs the step on the final state. -/
theorem runToolsSnoc (settings : Settings) (pageIndex : List (Int × List PyStr)) :
    ∀ (calls : List ToolCall) (st : RState) (c : ToolCall),
      runTools settings pageIndex st (calls ++ [c])
        = ((toolStep settings pageIndex (runTools settings pageIndex st calls).1 c).1,
           (runTools settings pageIndex st calls).2
             ++ (toolStep settings pageIndex (runTools settings pageIndex st calls).1 c).2) := by
  intro calls
  induction calls with
  | nil =>
    intro st c
    simp [runTools]
  | cons d rest ih =>
    intro st c
    rw [List.cons_append]
    simp only [runTools]
    rw [ih]
    dsimp only
    rw [List.append_assoc]

/-- Commit invariant of a whole run: at most one commit, and none at
all while `final_markdown_text` is still empty. -/
theorem runToolsCommitInvariant (settings : Settings)
    (pageIndex : List (Int × List PyStr)) :
    ∀ calls : List ToolCall,
      persistedCount (runTools settings pageIndex RState.init calls).2 ≤ 1
      ∧ (strTruthy (runTools settings pageIndex RState.init calls).1.finalMarkdownText
            = false →
         persistedCount (runTools settings pageIndex RState.init calls).2 = 0) := by
  intro calls
  induction calls using List.reverseRecOn with
  | nil => exact ⟨by simp [runTools, persistedCount], fun _ => rfl⟩
  | append_singleton rest c ih =>
    rw [runToolsSnoc]
    rcases toolStepCommit settings pageIndex
        (runTools settings pageIndex RState.init rest).1 c with ⟨h1, h2⟩ | ⟨h1, h2, h3⟩
    · constructor
      · simp only [persistedCount, List.count_append]
        have := ih.1
        simp only [persistedCount] at this h1
        omega
      · intro hft
        rw [h2] at hft
        have := ih.2 hft
        simp only [persistedCount, List.count_append]
        simp only [persistedCount] at this h1
        omega
    · constructor
      · have h0 := ih.2 h1
        simp only [persistedCount, List.count_append]
        simp only [persistedCount] at h0 h2
        omega
      · intro hft
        rw [h3] at hft
        simp at hft

/-- C2: for any sequence of tool calls within a single job, the number
of `final_report_persisted` events appended to the job's event log is
at most 1. -/
theorem c2AtMostOneCommit (settings : Settings)
    (pageIndex : List (Int × List PyStr)) (calls : List ToolCall) :
    persistedCount (runTools settings pageIndex RState.init calls).2 ≤ 1 :=
  (runToolsCommitInvariant settings pageIndex calls).1

/-- Membership after `addSig`. -/
theorem addSigMem (sigs : List PyStr) (x y : PyStr) :
    y ∈ addSig sigs x ↔ y ∈ sigs ∨ y = x := by
  unfold addSig
  split
  · rename_i hmem
    constructor
    · exact Or.inl
    · rintro (h | rfl)
      · exact h
      · simpa using hmem
  · simp

/-- `addSig` preserves `Nodup`. -/
theorem addSigNodup (sigs : List PyStr) (x : PyStr) (h : sigs.Nodup) :
    (addSig sigs x).Nodup := by
  unfold addSig
  split
  · exact h
  · rename_i hmem
    rw [List.contains_eq_any_beq] at hmem
    simp only [List.any_eq_true, beq_iff_eq, not_exists, not_and] at hmem
    have hx : x ∉ sigs := fun hin => hmem x hin rfl
    simpa [List.nodup_append, hx] using h

/-- Membership after folding `addSig` over a list of signatures. -/
theorem foldAddSigMem : ∀ (xs : List PyStr) (sigs : List PyStr) (y : PyStr),
    y ∈ xs.foldl addSig sigs ↔ y ∈ sigs ∨ y ∈ xs := by
  intro xs
  induction xs with
  | nil => intro sigs y; simp
  | cons x rest ih =>
    intro sigs y
    rw [List.foldl_cons, ih, addSigMem]
    constructor
    · rintro ((h | rfl) | h)
      · exact Or.inl h
      · exact Or.inr (List.mem_cons_self _ _)
      · exact Or.inr (List.mem_cons_of_mem _ h)
    · rintro (h | h)
      · exact Or.inl (Or.inl h)
      · rcases List.mem_cons.mp h with rfl | h2
        · exact Or.inl (Or.inr rfl)
        · exact Or.inr h2

/-- Folding `addSig` preserves `Nodup`. -/
theorem foldAddSigNodup : ∀ (xs : List PyStr) (sigs : List PyStr),
    sigs.Nodup → (xs.foldl addSig sigs).Nodup := by
  intro xs
  induction xs with
  | nil => intro sigs h; exact h
  | cons x rest ih =>
    intro sigs h
    rw [List.foldl_cons]
    exact ih _ (addSigNodup sigs x h)

/-- Signature extracted from a `question_results` row — `None` when the
stripped question is empty. -/
def qrowSig (row : QuestionRow) : Option PyStr :=
  if (pyStrip row.question).isEmpty then none
  else some (normalizeSignature (pyStrip row.question))

/-- The signatures one `paper_search` call adds to the distinct-query
set, in source order: the stripped query (when non-empty), the
normalized input questions, the adapter's returned `questions`, and the
non-empty `question_results` questions. -/
def callSigTexts (c : PaperSearchCall) : List PyStr :=
  (if (pyStrip (c.query.getD [])).isEmpty then []
   else [normalizeSignature (pyStrip (c.query.getD []))])
  ++ (normalizeQuestionList (c.questionListRaw.getD [])).map normalizeSignature
  ++ (c.remote.questionsReturned.getD []).map normalizeSignature
  ++ (c.remote.questionResults.getD []).filterMap qrowSig

/-- The `question_results` fold of `paperSearchStep` is a fold of
`addSig` over `filterMap qrowSig`. -/
theorem qrowFoldEq : ∀ (rows : List QuestionRow) (sigs : List PyStr),
    rows.foldl (fun acc row =>
      let q := pyStrip row.question
      if q.isEmpty then acc else addSig acc (normalizeSignature q)) sigs
    = (rows.filterMap qrowSig).foldl addSig sigs := by
  intro rows
  induction rows with
  | nil => intro sigs; rfl
  | cons row rest ih =>
    intro sigs
    rw [List.foldl_cons, List.filterMap_cons]
    dsimp only
    unfold qrowSig
    split
    · exact ih sigs
    · rw [List.foldl_cons]
      exact ih _

/-- The signature set after one `paper_search` call is the fold of
`addSig` over `callSigTexts`. -/
theorem paperSearchStepSigs (st : RState) (c : PaperSearchCall) :
    (paperSearchStep st c).1.paperSearchSignatures
      = (callSigTexts c).foldl addSig st.paperSearchSignatures := by
  unfold paperSearchStep callSigTexts
  dsimp only
  rw [List.foldl_append, List.foldl_append, List.foldl_append]
  rw [List.foldl_map, List.foldl_map]
  rw [qrowFoldEq]
  congr 1
  congr 1
  congr 1
  split
  · rename_i hq
    rw [if_neg]
    · rfl
    · simpa using hq
  · rename_i hq
    rw [if_pos]
    · rfl
    · simpa using hq

set_option maxHeartbeats 2000000 in
/-- Every tool call other than `paper_search` leaves the paper-search
signature set and usage counters unchanged. -/
theorem toolStepNonSearchSigs (settings : Settings)
    (pageIndex : List (Int × List PyStr)) (st : RState) (c : ToolCall)
    (hc : ∀ psc, c ≠ ToolCall.paperSearchCall psc) :
    (toolStep settings pageIndex st c).1.paperSearchSignatures
        = st.paperSearchSignatures
    ∧ (toolStep settings pageIndex st c).1.paperSearchUsage = st.paperSearchUsage := by
  cases c with
  | statusUpdate => exact ⟨rfl, rfl⟩
  | pdfSearchCall q k => exact ⟨rfl, rfl⟩
  | pdfReadLinesCall p =>
    unfold toolStep pdfReadLines
    dsimp only
    split
    · exact ⟨rfl, rfl⟩
    · split <;> exact ⟨rfl, rfl⟩
  | pdfJumpCall p =>
    unfold toolStep pdfJump
    dsimp only
    split
    · exact ⟨rfl, rfl⟩
    · split <;> exact ⟨rfl, rfl⟩
  | pdfAnnotateCall a =>
    unfold toolStep pdfAnnotate
    dsimp only
    repeat' split
    all_goals exact ⟨rfl, rfl⟩
  | paperSearchCall psc => exact absurd rfl (hc psc)
  | readPaperCall n =>
    unfold toolStep
    dsimp only
    split <;> exact ⟨rfl, rfl⟩
  | questionPromptCall => exact ⟨rfl, rfl⟩
  | finalWriteCall args =>
    show ((reviewFinalMarkdownWrite settings st args).1.paperSearchSignatures
        = st.paperSearchSignatures)
      ∧ (reviewFinalMarkdownWrite settings st args).1.paperSearchUsage
        = st.paperSearchUsage
    unfold reviewFinalMarkdownWrite
    dsimp only
    split
    · exact ⟨rfl, rfl⟩
    · split
      · exact ⟨rfl, rfl⟩
      · unfold finalWriteMerge
        dsimp only
        repeat' split
        all_goals exact ⟨rfl, rfl⟩

/-- Normalized signatures contributed by a list of tool calls, in call
order (only `paper_search` calls contribute). -/
def encounteredSigs (calls : List ToolCall) : List PyStr :=
  calls.flatMap (fun c =>
    match c with
    | ToolCall.paperSearchCall psc => callSigTexts psc
    | _ => [])

set_option maxHeartbeats 1000000 in
/-- Signature-set invariant of a run: the runtime's signature set is
duplicate-free and holds exactly the signatures encountered so far. -/
theorem runToolsSigsInvariant (settings : Settings)
    (pageIndex : List (Int × List PyStr)) :
    ∀ calls : List ToolCall,
      (runTools settings pageIndex RState.init calls).1.paperSearchSignatures.Nodup
      ∧ ∀ x, x ∈ (runTools settings pageIndex RState.init calls).1.paperSearchSignatures
          ↔ x ∈ encounteredSigs calls := by
  intro calls
  induction calls using List.reverseRecOn with
  | nil =>
    constructor
    · simp [runTools, RState.init]
    · intro x
      simp [runTools, RState.init, encounteredSigs]
  | append_singleton rest c ih =>
    rw [runToolsSnoc]
    have henc : encounteredSigs (rest ++ [c])
        = encounteredSigs rest ++ encounteredSigs [c] := by
      simp [encounteredSigs]
    by_cases hps : ∃ psc, c = ToolCall.paperSearchCall psc
    · obtain ⟨psc, rfl⟩ := hps
      have hstep : (toolStep settings pageIndex
          (runTools settings pageIndex RState.init rest).1
          (ToolCall.paperSearchCall psc)).1
          = (paperSearchStep
              (runTools settings pageIndex RState.init rest).1 psc).1 := rfl
      constructor
      · rw [hstep, paperSearchStepSigs]
        exact foldAddSigNodup _ _ ih.1
      · intro x
        rw [hstep, paperSearchStepSigs, foldAddSigMem, henc, List.mem_append, ih.2]
        simp [encounteredSigs]
    · have hns := toolStepNonSearchSigs settings pageIndex
        (runTools settings pageIndex RState.init rest).1 c
        (by intro psc h; exact hps ⟨psc, h⟩)
      have hencc : encounteredSigs [c] = [] := by
        cases c <;> first
          | rfl
          | exact absurd ⟨_, rfl⟩ hps
      refine ⟨hns.1 ▸ ih.1, ?_⟩
      intro x
      rw [hns.1, henc, hencc, List.append_nil]
      exact ih.2 x

/-- Two duplicate-free lists with the same members have the same
length; applied to a deduplicated comparison list. -/
theorem nodupFilterLengthEq (l m : List PyStr) (p : PyStr → Bool)
    (hl : l.Nodup) (hmem : ∀ x, x ∈ l ↔ x ∈ m) :
    (l.filter p).length = ((m.filter p).dedup).length := by
  have h1 : (l.filter p).Nodup := hl.filter p
  have h2 : ((m.filter p).dedup).Nodup := List.nodup_dedup _
  have hmm : ∀ x, x ∈ l.filter p ↔ x ∈ (m.filter p).dedup := by
    intro x
    rw [List.mem_dedup, List.mem_filter, List.mem_filter, hmem]
  exact ((List.perm_ext_iff_of_nodup h1 h2).mpr hmm).length_eq

/-- C6: every `paper_search` call increments `total_calls` by exactly
1; increments `successful_calls` iff the result marks success;
increments `effective_calls` and adds the paper count to `papers_found`
iff success with a positive count; and `distinct_queries` afterwards
equals the number of distinct non-empty normalized signatures of all
queries and questions encountered in the job so far. -/
theorem c6PaperSearchUsage (settings : Settings)
    (pageIndex : List (Int × List PyStr)) (calls : List ToolCall)
    (psc : PaperSearchCall) :
    (runTools settings pageIndex RState.init
        (calls ++ [ToolCall.paperSearchCall psc])).1.paperSearchUsage.totalCalls
      = (runTools settings pageIndex RState.init calls).1.paperSearchUsage.totalCalls + 1
    ∧ (runTools settings pageIndex RState.init
        (calls ++ [ToolCall.paperSearchCall psc])).1.paperSearchUsage.successfulCalls
      = (runTools settings pageIndex RState.init calls).1.paperSearchUsage.successfulCalls
        + (if psc.remote.success then 1 else 0)
    ∧ (runTools settings pageIndex RState.init
        (calls ++ [ToolCall.paperSearchCall psc])).1.paperSearchUsage.effectiveCalls
      = (runTools settings pageIndex RState.init calls).1.paperSearchUsage.effectiveCalls
        + (if psc.remote.success && countPapers psc.remote > 0 then 1 else 0)
    ∧ (runTools settings pageIndex RState.init
        (calls ++ [ToolCall.paperSearchCall psc])).1.paperSearchUsage.papersFound
      = (runTools settings pageIndex RState.init calls).1.paperSearchUsage.papersFound
        + (if psc.remote.success && countPapers psc.remote > 0
           then (countPapers psc.remote).toNat else 0)
    ∧ (runTools settings pageIndex RState.init
        (calls ++ [ToolCall.paperSearchCall psc])).1.paperSearchUsage.distinctQueries
      = (((encounteredSigs (calls ++ [ToolCall.paperSearchCall psc])).filter
          (fun s => !s.isEmpty)).dedup).length := by
  rw [runToolsSnoc]
  have hstep : (toolStep settings pageIndex
      (runTools settings pageIndex RState.init calls).1
      (ToolCall.paperSearchCall psc)).1
      = (paperSearchStep (runTools settings pageIndex RState.init calls).1 psc).1 := rfl
  rw [hstep]
  refine ⟨rfl, rfl, rfl, rfl, ?_⟩
  have hdist : (paperSearchStep
      (runTools settings pageIndex RState.init calls).1 psc).1.paperSearchUsage.distinctQueries
      = ((paperSearchStep
          (runTools settings pageIndex RState.init calls).1 psc).1.paperSearchSignatures.filter
          (fun s => !s.isEmpty)).length := rfl
  rw [hdist, paperSearchStepSigs]
  apply nodupFilterLengthEq
  · exact foldAddSigNodup _ _ (runToolsSigsInvariant settings pageIndex calls).1
  · intro x
    rw [foldAddSigMem, (runToolsSigsInvariant settings pageIndex calls).2 x]
    simp [encounteredSigs]

set_option maxRecDepth 100000 in
/-- C8 counterexample: the map `{summary ↦ "## Strengths\nx"}` has
canonical keys and non-empty content, but assembling and re-extracting
loses it: assembly produces `## Summary\n## Strengths\nx`, whose
extraction yields `{strengths ↦ "x"}` — no trailing-whitespace
normalization relates `none` to the original `summary` entry. -/
theorem c8Counterexample :
    alGet (extractRequiredSections
      (buildFinalReportMarkdown [("summary", "## Strengths\nx".toList)])) "summary" = none
    ∧ alGet [("summary", "## Strengths\nx".toList)] "summary"
        = some "## Strengths\nx".toList
    ∧ alGet (extractRequiredSections
      (buildFinalReportMarkdown [("summary", "## Strengths\nx".toList)])) "strengths"
        = some "x".toList := by
  refine ⟨?_, ?_, ?_⟩ <;> decide

/-- `pySplitLinesCore` on a leading newline. -/
theorem coreNL (rest acc : PyStr) :
    pySplitLinesCore ('\n' :: rest) acc = acc.reverse :: pySplitLinesCore rest [] := rfl

/-- `pySplitLinesCore` steps over a non-boundary character. -/
theorem coreCons (c : Char) (rest acc : PyStr) (hc : isLineBoundary c = false) :
    pySplitLinesCore (c :: rest) acc = pySplitLinesCore rest (c :: acc) := by
  rw [pySplitLinesCore.eq_def]
  split
  · rename_i heq
    exact absurd heq (by simp)
  · rename_i heq
    injection heq with h1 _
    rw [h1] at hc
    simp [isLineBoundary] at hc
  · rename_i hne heq
    injection heq with h1 h2
    subst h1
    subst h2
    rw [if_neg (by simp [hc])]

/-- Splitting a boundary-free segment followed by a newline. -/
theorem coreSeg : ∀ (seg rest acc : PyStr),
    (∀ c ∈ seg, isLineBoundary c = false) →
    pySplitLinesCore (seg ++ '\n' :: rest) acc
      = (acc.reverse ++ seg) :: pySplitLinesCore rest [] := by
  intro seg
  induction seg with
  | nil =>
    intro rest acc _
    simp [coreNL]
  | cons c seg' ih =>
    intro rest acc hbf
    rw [List.cons_append,
      coreCons c (seg' ++ '\n' :: rest) acc (hbf c (List.mem_cons_self _ _))]
    rw [ih rest (c :: acc) (fun d hd => hbf d (List.mem_cons_of_mem _ hd))]
    simp

/-- Splitting a final boundary-free segment. -/
theorem coreLast : ∀ (seg acc : PyStr),
    (∀ c ∈ seg, isLineBoundary c = false) →
    acc.reverse ++ seg ≠ [] →
    pySplitLinesCore seg acc = [acc.reverse ++ seg] := by
  intro seg
  induction seg with
  | nil =>
    intro acc _ hne
    have : acc ≠ [] := by
      intro h
      exact hne (by simp [h])
    rw [pySplitLinesCore.eq_def]
    simp only [List.isEmpty_iff]
    rw [if_neg this]
    simp
  | cons c seg' ih =>
    intro acc hbf hne
    rw [coreCons c seg' acc (hbf c (List.mem_cons_self _ _))]
    rw [ih (c :: acc) (fun d hd => hbf d (List.mem_cons_of_mem _ hd)) (by simp)]
    simp

/-- The heading line `## <Title>` emitted for a required section. -/
def titleLine (sid : String) : PyStr := "## ".toList ++ (sectionTitle sid).toList

/-- The full block `## <Title>\n<content>` emitted for an entry. -/
def blockOf (p : String × PyStr) : PyStr := titleLine p.1 ++ '\n' :: p.2

/-- Expected line decomposition of an assembled report: a title line,
the section's own lines, and a blank separator line between sections. -/
def expLines : List (String × PyStr) → List PyStr
  | [] => []
  | [(sid, v)] => titleLine sid :: pySplitLines v
  | (sid, v) :: rest => titleLine sid :: (pySplitLines v ++ [] :: expLines rest)

/-- Expected extraction buffers for a list of entries: each section holds
its own lines, plus the trailing blank separator except for the last. -/
def bufsFor : List (String × PyStr) → List (String × List PyStr)
  | [] => []
  | [(sid, v)] => [(sid, pySplitLines v)]
  | (sid, v) :: rest => (sid, pySplitLines v ++ [[]]) :: bufsFor rest

/-- The canonical-order entry list realized by a section map. -/
def canonicalEntries (m : List (String × PyStr)) : List (String × PyStr) :=
  requiredSectionOrder.filterMap (fun sid => (alGet m sid).map (fun v => (sid, v)))

/-- `joinSep` on a cons with non-empty tail. -/
theorem joinSepConsNe (sep x : PyStr) (ys : List PyStr) (h : ys ≠ []) :
    joinSep sep (x :: ys) = x ++ sep ++ joinSep sep ys := by
  cases ys with
  | nil => exact absurd rfl h
  | cons y rest => rfl

/-- Appending an empty final line adds a trailing newline to the join. -/
theorem joinSnocNilEq : ∀ (lines : List PyStr), lines ≠ [] →
    joinSep ['\n'] (lines ++ [[]]) = joinSep ['\n'] lines ++ ['\n'] := by
  intro lines
  induction lines with
  | nil => intro h; exact absurd rfl h
  | cons l rest ih =>
    intro _
    cases rest with
    | nil => simp [joinSep]
    | cons r rest' =>
      rw [List.cons_append, joinSepConsNe _ _ _ (by simp),
        joinSepConsNe _ _ _ (by simp), ih (by simp)]
      simp

/-- The splitter on a cons that is not the `\r\n` pair. -/
theorem coreConsSplit (ch : Char) (rest acc : PyStr)
    (hne : ∀ (r : PyStr), ch = '\r' → rest = '\n' :: r → False) :
    pySplitLinesCore (ch :: rest) acc
      = if isLineBoundary ch then acc.reverse :: pySplitLinesCore rest []
        else pySplitLinesCore rest (ch :: acc) := by
  rw [pySplitLinesCore.eq_def]
  split
  · rename_i heq
    exact absurd heq (by simp)
  · rename_i r heq
    injection heq with h1 h2
    exact (hne r h1 h2).elim
  · rename_i heq
    injection heq with h1 h2
    subst h1
    subst h2
    rfl

/-- Every line produced by the splitter is free of line boundaries. -/
theorem coreLinesBf : ∀ (s acc : PyStr),
    (∀ c ∈ acc, isLineBoundary c = false) →
    ∀ l ∈ pySplitLinesCore s acc, ∀ c ∈ l, isLineBoundary c = false := by
  intro s acc
  induction s, acc using pySplitLinesCore.induct with
  | case1 acc he =>
    intro _ l hl
    simp [pySplitLinesCore, he] at hl
  | case2 acc he =>
    intro hacc l hl c hc
    simp [pySplitLinesCore, List.isEmpty_iff] at he
    rw [show pySplitLinesCore [] acc
        = if acc.isEmpty then [] else [acc.reverse] from rfl] at hl
    rw [if_neg (by simp [List.isEmpty_iff, he])] at hl
    simp at hl
    subst hl
    exact hacc c (by simpa using hc)
  | case3 rest acc ih =>
    intro hacc l hl c hc
    rw [show pySplitLinesCore ('\r' :: '\n' :: rest) acc
        = acc.reverse :: pySplitLinesCore rest [] from rfl] at hl
    rcases List.mem_cons.mp hl with h1 | h2
    · subst h1
      exact hacc c (by simpa using hc)
    · exact ih (by simp) l h2 c hc
  | case4 ch rest acc hne hb ih =>
    intro hacc l hl c hc
    rw [coreConsSplit ch rest acc hne] at hl
    rw [if_pos hb] at hl
    rcases List.mem_cons.mp hl with h1 | h2
    · subst h1
      exact hacc c (by simpa using hc)
    · exact ih (by simp) l h2 c hc
  | case5 ch rest acc hne hb ih =>
    intro hacc l hl c hc
    rw [coreConsSplit ch rest acc hne] at hl
    rw [if_neg hb] at hl
    refine ih ?_ l hl c hc
    intro d hd
    rcases List.mem_cons.mp hd with h1 | h2
    · subst h1
      simpa using hb
    · exact hacc d h2

/-- A length-preserving `dropWhile` drops nothing. -/
theorem dropWhileLenEqSelf (p : Char → Bool) : ∀ (l : PyStr),
    (l.dropWhile p).length = l.length → l.dropWhile p = l := by
  intro l
  induction l with
  | nil => intro _; rfl
  | cons c t ih =>
    intro h
    rw [List.dropWhile_cons] at h ⊢
    by_cases hc : p c
    · rw [if_pos hc] at h
      have := lengthDropWhileLe p t
      simp at h
      omega
    · rw [if_neg hc]

/-- A fixed point of `pyStrip` is a fixed point of both one-sided strips. -/
theorem pyStripParts (s : PyStr) (h : pyStrip s = s) :
    pyLStrip s = s ∧ pyRStrip s = s := by
  have hlen1 : (pyLStrip s).length ≤ s.length := by
    simpa [pyLStrip] using lengthDropWhileLe isPyWs s
  have hlen2 : (pyRStrip (pyLStrip s)).length ≤ (pyLStrip s).length := by
    simpa [pyRStrip] using lengthDropWhileLe isPyWs (pyLStrip s).reverse
  have hlen3 : (pyStrip s).length = s.length := by rw [h]
  rw [pyStrip] at hlen3
  have hL : pyLStrip s = s := by
    have := dropWhileLenEqSelf isPyWs s
    simp only [pyLStrip] at hlen1 hlen2 hlen3 ⊢
    exact this (by omega)
  refine ⟨hL, ?_⟩
  rw [pyStrip, hL] at h
  exact h

/-- A non-empty left-strip fixed point starts with a non-space. -/
theorem headNonWsOfLStrip (c : Char) (t : PyStr) (h : pyLStrip (c :: t) = c :: t) :
    isPyWs c = false := by
  by_contra hc
  simp only [Bool.not_eq_false] at hc
  rw [pyLStrip, List.dropWhile_cons, if_pos hc] at h
  have := lengthDropWhileLe isPyWs t
  rw [h] at this
  simp at this

/-- A non-empty right-strip fixed point decomposes with a non-space last
character. -/
theorem lastNonWsOfRStrip (s : PyStr) (h : pyRStrip s = s) (hne : s ≠ []) :
    ∃ t c, s = t ++ [c] ∧ isPyWs c = false := by
  cases hr : s.reverse with
  | nil => exact absurd (by simpa using congrArg List.reverse hr) hne
  | cons c t' =>
    have hs : s = t'.reverse ++ [c] := by
      have := congrArg List.reverse hr
      simpa using this
    refine ⟨t'.reverse, c, hs, ?_⟩
    by_contra hw
    simp only [Bool.not_eq_false] at hw
    rw [pyRStrip, hr, List.dropWhile_cons, if_pos hw] at h
    have h1 := lengthDropWhileLe isPyWs t'
    have h2 := congrArg List.length h
    simp at h2
    have h3 : s.length = t'.length + 1 := by
      rw [hs]; simp
    omega

/-- Right strip leaves a list ending in a non-space untouched. -/
theorem pyRStripConcatNonWs (t : PyStr) (c : Char) (hc : isPyWs c = false) :
    pyRStrip (t ++ [c]) = t ++ [c] := by
  rw [pyRStrip, List.reverse_append]
  simp only [List.reverse_singleton, List.singleton_append, List.dropWhile_cons]
  rw [if_neg (by simp [hc])]
  simp

/-- Left strip leaves a list starting with a non-space untouched. -/
theorem pyLStripConsNonWs (c : Char) (t : PyStr) (hc : isPyWs c = false) :
    pyLStrip (c :: t) = c :: t := by
  rw [pyLStrip, List.dropWhile_cons, if_neg (by simp [hc])]

/-- Right strip ignores any prefix when the suffix is already stripped. -/
theorem pyRStripAppendOf (a b : PyStr) (hb : pyRStrip b = b) (hbne : b ≠ []) :
    pyRStrip (a ++ b) = a ++ b := by
  obtain ⟨t, c, heq, hc⟩ := lastNonWsOfRStrip b hb hbne
  rw [heq, ← List.append_assoc, pyRStripConcatNonWs _ _ hc]

/-- Right strip absorbs a trailing space character. -/
theorem pyRStripSnocWs (v : PyStr) (c : Char) (hc : isPyWs c = true) :
    pyRStrip (v ++ [c]) = pyRStrip v := by
  rw [pyRStrip, pyRStrip, List.reverse_append]
  simp only [List.reverse_singleton, List.singleton_append, List.dropWhile_cons]
  rw [if_pos (by simp [hc])]

/-- Stripping a stripped non-empty value with a trailing newline recovers
the value. -/
theorem stripSnocNl (v : PyStr) (hs : pyStrip v = v) (hne : v ≠ []) :
    pyStrip (v ++ ['\n']) = v := by
  obtain ⟨hl, hr⟩ := pyStripParts v hs
  cases v with
  | nil => exact absurd rfl hne
  | cons c t =>
    have hc := headNonWsOfLStrip c t hl
    show pyRStrip (pyLStrip ((c :: t) ++ ['\n'])) = c :: t
    rw [List.cons_append, pyLStripConsNonWs c _ hc, ← List.cons_append,
      pyRStripSnocWs _ '\n' (by decide), hr]

/-- Splitting a newline-join of boundary-free lines followed by a
newline and a remainder. -/
theorem coreJoinNl : ∀ (lines : List PyStr) (b : PyStr),
    lines ≠ [] →
    (∀ l ∈ lines, ∀ c ∈ l, isLineBoundary c = false) →
    pySplitLinesCore (joinSep ['\n'] lines ++ '\n' :: b) []
      = lines ++ pySplitLinesCore b [] := by
  intro lines
  induction lines with
  | nil => intro b h _; exact absurd rfl h
  | cons l rest ih =>
    intro b _ hbf
    cases rest with
    | nil =>
      show pySplitLinesCore (l ++ '\n' :: b) [] = [l] ++ pySplitLinesCore b []
      rw [coreSeg l b [] (hbf l (List.mem_cons_self _ _))]
      simp
    | cons r rest' =>
      rw [joinSepConsNe _ _ _ (by simp)]
      have hre : (l ++ ['\n'] ++ joinSep ['\n'] (r :: rest')) ++ '\n' :: b
          = l ++ '\n' :: (joinSep ['\n'] (r :: rest') ++ '\n' :: b) := by simp
      rw [hre, coreSeg l _ [] (hbf l (List.mem_cons_self _ _)),
        ih b (by simp) (fun l' hl' => hbf l' (List.mem_cons_of_mem _ hl'))]
      simp

/-- A non-empty block join starts with its first block. -/
theorem joinStartsHead (sep : PyStr) (x : PyStr) (ys : List PyStr) :
    ∃ r, joinSep sep (x :: ys) = x ++ r := by
  cases ys with
  | nil => exact ⟨[], by simp [joinSep]⟩
  | cons y rest => exact ⟨sep ++ joinSep sep (y :: rest), by
      rw [joinSepConsNe _ _ _ (by simp)]; simp⟩

/-- A non-empty block join ends with the last entry's content. -/
theorem joinEndsLast (sep : PyStr) : ∀ (L : List (String × PyStr)) (p : String × PyStr),
    ∃ pre, joinSep sep ((L ++ [p]).map blockOf) = pre ++ p.2 := by
  intro L
  induction L with
  | nil =>
    intro p
    exact ⟨titleLine p.1 ++ ['\n'], by simp [joinSep, blockOf]⟩
  | cons q L' ih =>
    intro p
    obtain ⟨pre', hpre⟩ := ih p
    refine ⟨blockOf q ++ sep ++ pre', ?_⟩
    rw [List.cons_append, List.map_cons, joinSepConsNe _ _ _ (by simp), hpre]
    simp

/-- The joined blocks of a non-empty entry list with stripped non-empty
contents are a `pyStrip` fixed point. -/
theorem stripJoinBlocks (L : List (String × PyStr)) (hL : L ≠ [])
    (hv : ∀ p ∈ L, pyStrip p.2 = p.2 ∧ p.2 ≠ []) :
    pyStrip (joinSep "\n\n".toList (L.map blockOf))
      = joinSep "\n\n".toList (L.map blockOf) := by
  cases L with
  | nil => exact absurd rfl hL
  | cons q L' =>
    cases hr : (q :: L').reverse with
    | nil => exact absurd (by simpa using congrArg List.reverse hr) (List.cons_ne_nil q L')
    | cons pl tl =>
      have hdec : q :: L' = tl.reverse ++ [pl] := by
        have := congrArg List.reverse hr
        simpa using this
      obtain ⟨pre, hpre⟩ := joinEndsLast "\n\n".toList tl.reverse pl
      obtain ⟨r, hrhd⟩ := joinStartsHead "\n\n".toList (blockOf q) (L'.map blockOf)
      have hpl : pl ∈ q :: L' := by rw [hdec]; simp
      obtain ⟨hps, hpne⟩ := hv pl hpl
      have hrs : pyRStrip pl.2 = pl.2 := (pyStripParts _ hps).2
      rw [pyStrip]
      have hlsf : pyLStrip (joinSep "\n\n".toList ((q :: L').map blockOf))
          = joinSep "\n\n".toList ((q :: L').map blockOf) := by
        rw [List.map_cons, hrhd]
        show pyLStrip ('#' :: ('#' :: ' ' :: (((sectionTitle q.1).toList ++ '\n' :: q.2) ++ r)))
          = blockOf q ++ r
        rw [pyLStripConsNonWs _ _ (by decide)]
        rfl
      rw [hlsf, hdec, hpre, pyRStripAppendOf _ _ hrs hpne]

set_option maxRecDepth 100000 in
set_option maxHeartbeats 2000000 in
/-- The emitted `## <Title>` line of every required section matches the
heading regex with exactly its title as capture, that title resolves back
to the same section id, and the line is free of line boundaries. -/
theorem titleFacts : ∀ sid ∈ requiredSectionOrder,
    headingMatch (titleLine sid) = some (sectionTitle sid).toList
    ∧ resolveSectionId (sectionTitle sid).toList = some sid
    ∧ (∀ c ∈ titleLine sid, isLineBoundary c = false) := by decide

/-- The canonical section-id order has no duplicates. -/
theorem requiredSectionOrderNodup : requiredSectionOrder.Nodup := by decide

/-- A blank line is not a heading. -/
theorem headingMatchNil : headingMatch ([] : PyStr) = none := rfl

/-- Splitting an assembled blocks join yields the expected lines: each
title line followed by the section's own lines, blank-separated. -/
theorem splitJoinBlocks : ∀ (L : List (String × PyStr)),
    L ≠ [] →
    (∀ p ∈ L, p.1 ∈ requiredSectionOrder) →
    (∀ p ∈ L, p.2 ≠ [] ∧ joinSep ['\n'] (pySplitLines p.2) = p.2) →
    pySplitLines (joinSep "\n\n".toList (L.map blockOf)) = expLines L := by
  intro L
  induction L with
  | nil => intro h _ _; exact absurd rfl h
  | cons p L' ih =>
    intro _ hord hv
    obtain ⟨sid, v⟩ := p
    have hbfT : ∀ c ∈ titleLine sid, isLineBoundary c = false :=
      (titleFacts sid (hord _ (List.mem_cons_self _ _))).2.2
    obtain ⟨hne, hjoin⟩ := hv (sid, v) (List.mem_cons_self _ _)
    have hlne : pySplitLines v ≠ [] := by
      intro h0
      rw [h0] at hjoin
      exact hne (by simpa [joinSep] using hjoin.symm)
    have hlbf : ∀ l ∈ pySplitLines v, ∀ c ∈ l, isLineBoundary c = false :=
      coreLinesBf v [] (by simp)
    cases L' with
    | nil =>
      show pySplitLinesCore (joinSep "\n\n".toList [blockOf (sid, v)]) []
        = titleLine sid :: pySplitLines v
      rw [show joinSep "\n\n".toList [blockOf (sid, v)] = blockOf (sid, v) from rfl]
      rw [show blockOf (sid, v) = titleLine sid ++ '\n' :: v from rfl]
      rw [coreSeg _ _ _ hbfT]
      simp [pySplitLines]
    | cons q L'' =>
      rw [List.map_cons, joinSepConsNe _ _ _ (by simp)]
      have hre : blockOf (sid, v) ++ "\n\n".toList
            ++ joinSep "\n\n".toList ((q :: L'').map blockOf)
          = titleLine sid
            ++ '\n' :: (v ++ '\n' :: ('\n' :: joinSep "\n\n".toList ((q :: L'').map blockOf))) := by
        show (titleLine sid ++ '\n' :: v) ++ '\n' :: '\n' :: []
            ++ joinSep "\n\n".toList ((q :: L'').map blockOf) = _
        simp
      rw [show pySplitLines (blockOf (sid, v) ++ "\n\n".toList
            ++ joinSep "\n\n".toList ((q :: L'').map blockOf))
          = pySplitLinesCore (blockOf (sid, v) ++ "\n\n".toList
            ++ joinSep "\n\n".toList ((q :: L'').map blockOf)) [] from rfl]
      rw [hre, coreSeg _ _ _ hbfT]
      have hcj := coreJoinNl (pySplitLines v)
        ('\n' :: joinSep "\n\n".toList ((q :: L'').map blockOf)) hlne hlbf
      rw [hjoin] at hcj
      rw [hcj, coreNL]
      have hihl : pySplitLinesCore (joinSep "\n\n".toList ((q :: L'').map blockOf)) []
          = expLines (q :: L'') := by
        have := ih (by simp) (fun p hp => hord p (List.mem_cons_of_mem _ hp))
          (fun p hp => hv p (List.mem_cons_of_mem _ hp))
        simpa [pySplitLines] using this
      rw [hihl]
      show titleLine sid :: (pySplitLines v ++ [] :: expLines (q :: L''))
        = expLines ((sid, v) :: q :: L'')
      rw [show expLines ((sid, v) :: q :: L'')
          = titleLine sid :: (pySplitLines v ++ [] :: expLines (q :: L'')) from rfl]

/-- Loop step on a non-heading line with an active section. -/
theorem loopStepNone (line : PyStr) (rest : List PyStr) (sid : String)
    (bufs : List (String × List PyStr)) (h : headingMatch line = none) :
    extractSectionsLoop (line :: rest) (some sid) bufs
      = extractSectionsLoop rest (some sid) (bufAppend bufs sid line) := by
  simp only [extractSectionsLoop, h]

/-- Loop step on a heading line resolving to a fresh required section. -/
theorem loopStepHeadingNew (line : PyStr) (rest : List PyStr) (active : Option String)
    (bufs : List (String × List PyStr)) (ht : PyStr) (sid : String)
    (h1 : headingMatch line = some ht) (h2 : resolveSectionId ht = some sid)
    (h3 : bufs.any (fun p => p.1 = sid) = false) :
    extractSectionsLoop (line :: rest) active bufs
      = extractSectionsLoop rest (some sid) (bufs ++ [(sid, [])]) := by
  simp only [extractSectionsLoop, h1, h2, h3, Bool.false_eq_true, if_false]

/-- `bufAppend` on a buffer list ending in the active section. -/
theorem bufAppendLast (done : List (String × List PyStr)) (sid : String)
    (cur : List PyStr) (line : PyStr) (hnd : ∀ p ∈ done, p.1 ≠ sid) :
    bufAppend (done ++ [(sid, cur)]) sid line = done ++ [(sid, cur ++ [line])] := by
  unfold bufAppend
  rw [if_pos (by simp)]
  rw [List.map_append]
  congr 1
  · conv_rhs => rw [← List.map_id done]
    apply List.map_congr_left
    intro p hp
    rw [if_neg (hnd p hp)]
    rfl
  · simp

/-- Running the loop over non-heading lines accumulates them under the
active section. -/
theorem contentRun : ∀ (ls : List PyStr) (tl : List PyStr) (sid : String)
    (done : List (String × List PyStr)) (cur : List PyStr),
    (∀ l ∈ ls, headingMatch l = none) →
    (∀ p ∈ done, p.1 ≠ sid) →
    extractSectionsLoop (ls ++ tl) (some sid) (done ++ [(sid, cur)])
      = extractSectionsLoop tl (some sid) (done ++ [(sid, cur ++ ls)]) := by
  intro ls
  induction ls with
  | nil => intro tl sid done cur _ _; simp
  | cons l ls' ih =>
    intro tl sid done cur hh hd
    rw [List.cons_append,
      loopStepNone l (ls' ++ tl) sid _ (hh l (List.mem_cons_self _ _)),
      bufAppendLast done sid cur l hd,
      ih tl sid done (cur ++ [l]) (fun l' hl' => hh l' (List.mem_cons_of_mem _ hl')) hd]
    simp

/-- Running the loop over the expected lines of a disjoint entry list
appends exactly the expected buffers. -/
theorem loopRun : ∀ (L : List (String × PyStr)) (active : Option String)
    (bufs : List (String × List PyStr)),
    (∀ p ∈ L, p.1 ∈ requiredSectionOrder) →
    (L.map Prod.fst).Nodup →
    (∀ p ∈ L, ∀ q ∈ bufs, q.1 ≠ p.1) →
    (∀ p ∈ L, ∀ line ∈ pySplitLines p.2, headingMatch line = none) →
    extractSectionsLoop (expLines L) active bufs = bufs ++ bufsFor L := by
  intro L
  induction L with
  | nil => intro active bufs _ _ _ _; simp [expLines, bufsFor, extractSectionsLoop]
  | cons p L' ih =>
    intro active bufs hord hnd hdisj hnh
    obtain ⟨sid, v⟩ := p
    have htf := titleFacts sid (hord _ (List.mem_cons_self _ _))
    have hany : bufs.any (fun q => q.1 = sid) = false := by
      rw [List.any_eq_false]
      intro q hq
      simpa using hdisj (sid, v) (List.mem_cons_self _ _) q hq
    have hnhv := hnh (sid, v) (List.mem_cons_self _ _)
    have hdn : ∀ q ∈ bufs, q.1 ≠ sid :=
      fun q hq => hdisj (sid, v) (List.mem_cons_self _ _) q hq
    cases L' with
    | nil =>
      show extractSectionsLoop (titleLine sid :: pySplitLines v) active bufs = _
      rw [loopStepHeadingNew _ _ _ _ _ _ htf.1 htf.2.1 hany]
      have hcr := contentRun (pySplitLines v) [] sid bufs [] hnhv hdn
      rw [List.append_nil] at hcr
      rw [hcr]
      show bufs ++ [(sid, [] ++ pySplitLines v)] = bufs ++ bufsFor [(sid, v)]
      rw [show bufsFor [(sid, v)] = [(sid, pySplitLines v)] from rfl]
      simp
    | cons q L'' =>
      have hnd' : (sid :: (q :: L'').map Prod.fst).Nodup := by
        simpa only [List.map_cons] using hnd
      have hpair := List.nodup_cons.mp hnd'
      have hsidnm : sid ∉ (q :: L'').map Prod.fst := hpair.1
      show extractSectionsLoop
        (titleLine sid :: (pySplitLines v ++ [] :: expLines (q :: L''))) active bufs = _
      rw [loopStepHeadingNew _ _ _ _ _ _ htf.1 htf.2.1 hany,
        contentRun (pySplitLines v) ([] :: expLines (q :: L'')) sid bufs [] hnhv hdn,
        loopStepNone _ _ _ _ headingMatchNil,
        bufAppendLast bufs sid _ [] hdn]
      rw [ih (some sid) (bufs ++ [(sid, ([] ++ pySplitLines v) ++ [[]])])
        (fun p hp => hord p (List.mem_cons_of_mem _ hp))
        (by simpa only [List.map_cons] using hpair.2)
        (by
          intro p hp r hr
          rcases List.mem_append.mp hr with hr1 | hr2
          · exact hdisj p (List.mem_cons_of_mem _ hp) r hr1
          · have hre : r = (sid, ([] ++ pySplitLines v) ++ [[]]) := by simpa using hr2
            rw [hre]
            intro hcontr
            apply hsidnm
            rw [show ((sid, ([] ++ pySplitLines v) ++ [[]]) :
                String × List PyStr).1 = sid from rfl] at hcontr
            rw [hcontr]
            exact List.mem_map.mpr ⟨p, hp, rfl⟩)
        (fun p hp => hnh p (List.mem_cons_of_mem _ hp))]
      show (bufs ++ [(sid, ([] ++ pySplitLines v) ++ [[]])]) ++ bufsFor (q :: L'')
        = bufs ++ bufsFor ((sid, v) :: q :: L'')
      rw [show bufsFor ((sid, v) :: q :: L'')
          = (sid, pySplitLines v ++ [[]]) :: bufsFor (q :: L'') from rfl]
      simp

/-- Filtering the expected buffers recovers the entry list. -/
theorem bufsForFilter : ∀ (L : List (String × PyStr)),
    (∀ p ∈ L, pyStrip p.2 = p.2 ∧ p.2 ≠ [] ∧ joinSep ['\n'] (pySplitLines p.2) = p.2) →
    (bufsFor L).filterMap (fun p =>
      let content := pyStrip (joinSep ['\n'] p.2)
      if content.isEmpty then none else some (p.1, content)) = L := by
  intro L
  induction L with
  | nil => intro _; rfl
  | cons p L' ih =>
    intro hv
    obtain ⟨sid, v⟩ := p
    obtain ⟨hs, hne, hj⟩ := hv (sid, v) (List.mem_cons_self _ _)
    have hlne : pySplitLines v ≠ [] := by
      intro h0
      rw [h0] at hj
      exact hne (by simpa [joinSep] using hj.symm)
    cases L' with
    | nil =>
      show List.filterMap _ [(sid, pySplitLines v)] = [(sid, v)]
      rw [List.filterMap_cons]
      dsimp only
      rw [hj, hs, if_neg (by simp [List.isEmpty_iff, hne])]
      rfl
    | cons q L'' =>
      show List.filterMap _ ((sid, pySplitLines v ++ [[]]) :: bufsFor (q :: L''))
        = (sid, v) :: q :: L''
      rw [List.filterMap_cons]
      dsimp only
      rw [joinSnocNilEq _ hlne, hj, stripSnocNl v hs hne,
        if_neg (by simp [List.isEmpty_iff, hne])]
      rw [ih (fun p hp => hv p (List.mem_cons_of_mem _ hp))]

/-- Pointwise-equal filter functions give equal `filterMap`s. -/
theorem filterMapCongrMem {α β : Type} (f g : α → Option β) : ∀ (l : List α),
    (∀ a ∈ l, f a = g a) → l.filterMap f = l.filterMap g := by
  intro l
  induction l with
  | nil => intro _; rfl
  | cons a t ih =>
    intro h
    rw [List.filterMap_cons, List.filterMap_cons, h a (List.mem_cons_self _ _),
      ih (fun b hb => h b (List.mem_cons_of_mem _ hb))]

/-- A successful dict lookup returns an element of the dict. -/
theorem alGetMem {β : Type} : ∀ (m : List (String × β)) (sid : String) (v : β),
    alGet m sid = some v → (sid, v) ∈ m := by
  intro m sid v h
  rw [alGet] at h
  cases hf : m.find? (fun p => p.1 = sid) with
  | none => rw [hf] at h; cases h
  | some q =>
    rw [hf] at h
    have hq := List.find?_some hf
    have hmem := List.mem_of_find?_eq_some hf
    simp at hq h
    rw [← h, ← hq]
    exact hmem

/-- Under unique keys, membership determines the dict lookup. -/
theorem alGetOfMemNodup {β : Type} : ∀ (m : List (String × β)) (sid : String) (v : β),
    (m.map Prod.fst).Nodup → (sid, v) ∈ m → alGet m sid = some v := by
  intro m
  induction m with
  | nil => intro sid v _ h; cases h
  | cons p t ih =>
    intro sid v hnd hmem
    rcases List.mem_cons.mp hmem with heq | hmem'
    · rw [← heq]
      simp [alGet, List.find?_cons]
    · have hsid : sid ∈ t.map Prod.fst := List.mem_map.mpr ⟨(sid, v), hmem', rfl⟩
      have hpair := List.nodup_cons.mp (by simpa only [List.map_cons] using hnd)
      have hp : (p.1 = sid) = False := by
        simp only [eq_iff_iff, iff_false]
        intro h
        exact hpair.1 (h ▸ hsid)
      rw [alGet, List.find?_cons]
      rw [show (decide (p.1 = sid)) = false by simp [hp]]
      exact ih sid v hpair.2 hmem'

/-- A key absent from the dict looks up to `none`. -/
theorem alGetOfNotMem {β : Type} : ∀ (m : List (String × β)) (sid : String),
    sid ∉ m.map Prod.fst → alGet m sid = none := by
  intro m
  induction m with
  | nil => intro sid _; rfl
  | cons p t ih =>
    intro sid hnm
    have hp : (decide (p.1 = sid)) = false := by
      simp only [decide_eq_false_iff_not]
      intro h
      exact hnm (by simp [← h])
    rw [alGet, List.find?_cons, hp]
    exact ih sid (fun h => hnm (List.mem_cons_of_mem _ h))

/-- Membership in the canonical entry list characterized by lookup. -/
theorem canonMemIff (m : List (String × PyStr)) (sid : String) (v : PyStr) :
    (sid, v) ∈ canonicalEntries m
      ↔ sid ∈ requiredSectionOrder ∧ alGet m sid = some v := by
  rw [canonicalEntries]
  rw [List.mem_filterMap]
  constructor
  · rintro ⟨a, ha, hfa⟩
    cases hga : alGet m a with
    | none => rw [hga] at hfa; cases hfa
    | some w =>
      rw [hga] at hfa
      simp at hfa
      obtain ⟨h1, h2⟩ := hfa
      subst h1
      exact ⟨ha, by rw [hga, h2]⟩
  · rintro ⟨h1, h2⟩
    exact ⟨sid, h1, by rw [h2]; rfl⟩

/-- The canonical entry keys form a sublist of the canonical order. -/
theorem canonKeysSublist (m : List (String × PyStr)) :
    ((canonicalEntries m).map Prod.fst).Sublist requiredSectionOrder := by
  rw [canonicalEntries]
  generalize requiredSectionOrder = l
  induction l with
  | nil => simp
  | cons a t ih =>
    rw [List.filterMap_cons]
    cases h : alGet m a with
    | none => exact ih.cons a
    | some v =>
      show ((a, v) :: List.filterMap _ t).map Prod.fst |>.Sublist (a :: t)
      rw [List.map_cons]
      exact ih.cons₂ a

/-- The assembled blocks are exactly the canonical entries' blocks when
every stored value is stripped and non-empty. -/
theorem blocksEq (m : List (String × PyStr))
    (hv : ∀ p ∈ m, pyStrip p.2 = p.2 ∧ p.2 ≠ []) :
    requiredSectionOrder.filterMap (fun sid =>
      let content := pyStrip ((alGet m sid).getD [])
      if content.isEmpty then none
      else some ("## ".toList ++ (sectionTitle sid).toList ++ '\n' :: content))
      = (canonicalEntries m).map blockOf := by
  rw [canonicalEntries, List.map_filterMap]
  apply filterMapCongrMem
  intro sid _
  dsimp only
  cases hga : alGet m sid with
  | none =>
    rw [show pyStrip (((none : Option PyStr)).getD []) = [] from rfl]
    rfl
  | some v =>
    obtain ⟨hs, hne⟩ := hv (sid, v) (alGetMem m sid v hga)
    rw [show ((some v).getD ([] : PyStr)) = v from rfl, hs,
      if_neg (by simp [List.isEmpty_iff, hne])]
    rfl

set_option maxHeartbeats 1000000 in
/-- C8: assembling a section map into the final-report markdown and
re-extracting sections from that markdown is lossless for maps whose
keys are canonical required-section ids without duplicates and whose
values are stripped, non-empty, heading-free, and newline-normalized:
every lookup agrees before and after the round trip. -/
theorem c8RoundTripAmended (m : List (String × PyStr))
    (hord : ∀ p ∈ m, p.1 ∈ requiredSectionOrder)
    (hnd : (m.map Prod.fst).Nodup)
    (hv : ∀ p ∈ m, pyStrip p.2 = p.2 ∧ p.2 ≠ []
      ∧ (∀ line ∈ pySplitLines p.2, headingMatch line = none)
      ∧ joinSep ['\n'] (pySplitLines p.2) = p.2)
    (sid : String) :
    alGet (extractRequiredSections (buildFinalReportMarkdown m)) sid = alGet m sid := by
  have hvL : ∀ p ∈ canonicalEntries m, pyStrip p.2 = p.2 ∧ p.2 ≠ []
      ∧ (∀ line ∈ pySplitLines p.2, headingMatch line = none)
      ∧ joinSep ['\n'] (pySplitLines p.2) = p.2 := by
    intro p hp
    obtain ⟨sid', v⟩ := p
    have hpm := (canonMemIff m sid' v).mp hp
    exact hv _ (alGetMem m sid' v hpm.2)
  have hordL : ∀ p ∈ canonicalEntries m, p.1 ∈ requiredSectionOrder := by
    intro p hp
    obtain ⟨sid', v⟩ := p
    exact ((canonMemIff m sid' v).mp hp).1
  have hndL : ((canonicalEntries m).map Prod.fst).Nodup :=
    (canonKeysSublist m).nodup requiredSectionOrderNodup
  by_cases hL : canonicalEntries m = []
  · have hm : m = [] := by
      cases hm0 : m with
      | nil => rfl
      | cons p t =>
        exfalso
        have hget : alGet m p.1 = some p.2 := by
          apply alGetOfMemNodup _ _ _ hnd
          rw [hm0]
          exact List.mem_cons_self _ _
        have hmemL : (p.1, p.2) ∈ canonicalEntries m :=
          (canonMemIff _ _ _).mpr ⟨hord p (by rw [hm0]; exact List.mem_cons_self _ _), hget⟩
        rw [hL] at hmemL
        cases hmemL
    subst hm
    rw [show buildFinalReportMarkdown [] = [] from by decide]
    rfl
  · have hblocks : requiredSectionOrder.filterMap (fun sid' =>
        let content := pyStrip ((alGet m sid').getD [])
        if content.isEmpty then none
        else some ("## ".toList ++ (sectionTitle sid').toList ++ '\n' :: content))
        = (canonicalEntries m).map blockOf :=
      blocksEq m (fun p hp => ⟨(hv p hp).1, (hv p hp).2.1⟩)
    have hbuild : buildFinalReportMarkdown m
        = joinSep "\n\n".toList ((canonicalEntries m).map blockOf) := by
      rw [buildFinalReportMarkdown]
      dsimp only
      rw [hblocks]
      rw [if_neg (by simp [List.isEmpty_iff, hL])]
      exact stripJoinBlocks _ hL (fun p hp => ⟨(hvL p hp).1, (hvL p hp).2.1⟩)
    have hsplit : pySplitLines (joinSep "\n\n".toList ((canonicalEntries m).map blockOf))
        = expLines (canonicalEntries m) :=
      splitJoinBlocks _ hL hordL (fun p hp => ⟨(hvL p hp).2.1, (hvL p hp).2.2.2⟩)
    have hloop : extractSectionsLoop (expLines (canonicalEntries m)) none []
        = bufsFor (canonicalEntries m) := by
      have hlr := loopRun (canonicalEntries m) none [] hordL hndL
        (by intro p _ q hq; cases hq) (fun p hp => (hvL p hp).2.2.1)
      simpa using hlr
    have hextract : extractRequiredSections (buildFinalReportMarkdown m)
        = canonicalEntries m := by
      rw [hbuild, extractRequiredSections, hsplit, hloop]
      exact bufsForFilter _ (fun p hp => ⟨(hvL p hp).1, (hvL p hp).2.1, (hvL p hp).2.2.2⟩)
    rw [hextract]
    cases hga : alGet m sid with
    | some v =>
      have hmem : (sid, v) ∈ m := alGetMem m sid v hga
      have hmemL : (sid, v) ∈ canonicalEntries m :=
        (canonMemIff m sid v).mpr ⟨hord _ hmem, hga⟩
      exact alGetOfMemNodup _ sid v hndL hmemL
    | none =>
      apply alGetOfNotMem
      intro hmemk
      obtain ⟨p, hp, hp1⟩ := List.mem_map.mp hmemk
      obtain ⟨sid', v⟩ := p
      have h2 := ((canonMemIff m sid' v).mp hp).2
      rw [show sid' = sid from hp1] at h2
      rw [hga] at h2
      cases h2

set_option maxRecDepth 100000 in
/-- Witness: a two-section map round-trips exactly through assembly and
extraction. -/
theorem c8RoundTripAmendedWitness :
    alGet (extractRequiredSections (buildFinalReportMarkdown
      [("summary", "Good paper.".toList),
       ("strengths", "Solid results.\nNovel method.".toList)])) "strengths"
      = alGet [("summary", "Good paper.".toList),
       ("strengths", "Solid results.\nNovel method.".toList)] "strengths"
    ∧ alGet [("summary", "Good paper.".toList),
       ("strengths", "Solid results.\nNovel method.".toList)] "strengths"
      = some "Solid results.\nNovel method.".toList :=
  ⟨c8RoundTripAmended
    [("summary", "Good paper.".toList),
     ("strengths", "Solid results.\nNovel method.".toList)]
    (by decide) (by decide) (by decide) "strengths",
   by decide⟩
